import Mathlib

/-!
# crash.c: job control of a small interactive shell

A shallow embedding of `src/crash.c`.  The C globals become one record that is
passed explicitly; every call that touches the outside world (write, printf,
kill, fork, exit) appends one item to an effect trace; what the operating
system decides (the value returned by `fork`, the reports returned by
`waitpid`, the moments at which SIGCHLD is delivered) is an explicit argument.

Conventions
* C strings are `List Char` (one `Char` per byte, no terminating NUL).
* `int`, `pid_t` and `long` values are `Int`.  Conversions of a `long` to an
  `int` wrap modulo `2^32` (`to_int`).  The increment `next_job_id++` is
  computed on `Int`: signed overflow is undefined in C, and the counter is
  only ever incremented by one per registered job.
* `jobs_count` is a `Nat`: it starts at 0 and its only decrement is guarded
  by `jobid < jobs_count`.
-/

namespace Crash

/-! ## Data model (lines 10-32) -/

/-- The constant `MAXLINE`. -/
def MAXLINE : Nat := 1024

/-- The struct `job_t`; `command` is the content of the `char[256]` buffer. -/
structure job_t where
  pid : Int
  job_id : Int
  command : List Char
  ended : Bool
  suspended : Bool
deriving DecidableEq, Repr, Inhabited

/-- Signals the shell sends with `kill`. -/
inductive Signal where
  | SIGINT
  | SIGQUIT
  | SIGTSTP
  | SIGKILL
  | SIGCONT
deriving DecidableEq, Repr

/-- One call that leaves the process, in program order. -/
inductive Effect where
  /-- The call `write(fd, msg, strlen(msg))`. -/
  | write (fd : Int) (msg : List Char)
  /-- A call of `printf` with the formatted text. -/
  | printf (msg : List Char)
  /-- A call of `fprintf(stderr, ...)` with the formatted text. -/
  | eprintf (msg : List Char)
  /-- The call `kill(pid, sig)`. -/
  | kill (pid : Int) (sig : Signal)
  /-- The call `fork()` together with the value it returned. -/
  | fork (ret : Int)
  /-- The call `setpgid(pid, pgid)`. -/
  | setpgid (pid : Int) (pgid : Int)
  /-- The call `execvp(file, argv)`. -/
  | execvp (file : List Char) (argv : List (List Char))
  /-- The calls `exit(code)` and `_exit(code)`. -/
  | exit (code : Int)
deriving DecidableEq, Repr

/-- The globals of the program: the four fields of `global_jobs`, then `count`
and `fg_pid`.  `trace` collects the effects performed so far and `id_log` is a
history variable: the values stored into `j->job_id` at line 478, oldest
first. -/
structure Shell where
  jobs_count : Nat
  next_job_id : Int
  jobs_32 : List job_t
  active_jobs : Int
  count : Int
  fg_pid : Int
  trace : List Effect
  id_log : List Int
deriving DecidableEq, Repr

/-- The state set up by `main` (lines 613-617); the array starts zeroed. -/
def init : Shell :=
  { jobs_count := 0, next_job_id := 1, jobs_32 := List.replicate 32 default,
    active_jobs := 0, count := 0, fg_pid := 0, trace := [], id_log := [] }

/-- The array element `global_jobs.jobs_32[i]`. -/
def slot (s : Shell) (i : Nat) : job_t := s.jobs_32.getD i default

/-- The job table: the first `jobs_count` elements of the array. -/
def table (s : Shell) : List job_t := s.jobs_32.take s.jobs_count

/-- Append one effect to the trace. -/
def emit (e : Effect) (s : Shell) : Shell := { s with trace := s.trace ++ [e] }

/-- The helper `sig_printf` (lines 37-39): one `write` of the whole message. -/
def sig_printf (fd : Int) (msg : List Char) (s : Shell) : Shell :=
  emit (Effect.write fd msg) s

/-- The descriptor `STDOUT_FILENO`. -/
def STDOUT_FILENO : Int := 1

/-! ## Formatting and parsing of numbers (libc) -/

/-- The conversion `%d` / `%ld` of printf: decimal digits, a minus sign for a
negative number. -/
def fmt_d (x : Int) : List Char :=
  if x < 0 then '-' :: Nat.toDigits 10 x.natAbs else Nat.toDigits 10 x.natAbs

/-- What `snprintf(buf, size, ...)` leaves in `buf`: at most `size - 1` bytes. -/
def snprintf (size : Nat) (text : List Char) : List Char := text.take (size - 1)

/-- Conversion of a `long` to an `int`: reduction modulo `2^32` into
`[-2^31, 2^31)`. -/
def to_int (x : Int) : Int := (x + 2147483648) % 4294967296 - 2147483648

/-- The constant `LONG_MAX` of a 64-bit `long`. -/
def LONG_MAX : Int := 9223372036854775807

/-- The constant `LONG_MIN` of a 64-bit `long`. -/
def LONG_MIN : Int := -9223372036854775808

/-- The test `isspace` in the C locale. -/
def isspace (c : Char) : Bool :=
  c.toNat = 32 || (9 ≤ c.toNat && c.toNat ≤ 13)

/-- The test `isdigit`. -/
def isdigit (c : Char) : Bool := 48 ≤ c.toNat && c.toNat ≤ 57

/-- Value of a run of decimal digits, most significant first. -/
def digits_value (ds : List Char) : Nat :=
  ds.foldl (fun acc c => 10 * acc + (c.toNat - 48)) 0

/-- The libc function `strtol(nptr, &endptr, 10)`: the value and the rest of
the string at `endptr`.  Leading white space is skipped, one sign is accepted,
the longest run of digits is converted and clamped to the range of `long`;
without any digit the value is 0 and `endptr` is `nptr`. -/
def strtol (nptr : List Char) : Int × List Char :=
  let t := nptr.dropWhile isspace
  let neg := t.head? = some '-'
  let u := if t.head? = some '-' ∨ t.head? = some '+' then t.tail else t
  let ds := u.takeWhile isdigit
  if ds = [] then (0, nptr)
  else
    let v : Int := if neg then -(digits_value ds : Int) else (digits_value ds : Int)
    (max LONG_MIN (min LONG_MAX v), u.dropWhile isdigit)

/-! ## job_eliminate (lines 46-54) -/

/-- The loop of lines 49-51, started at index `i` with `k` iterations left:
each iteration copies element `i + 1` onto element `i`. -/
def shift_up : Nat → Nat → List job_t → List job_t
  | 0, _, a => a
  | k + 1, i, a => shift_up k (i + 1) (a.set i (a.getD (i + 1) default))

/-- The function `job_eliminate`: `jobid` is an array index. -/
def job_eliminate (jobid : Int) (s : Shell) : Shell :=
  if jobid < 0 ∨ jobid ≥ (s.jobs_count : Int) then s
  else
    { s with
      jobs_32 := shift_up (s.jobs_count - 1 - jobid.toNat) jobid.toNat s.jobs_32
      jobs_count := s.jobs_count - 1
      active_jobs := s.active_jobs - 1 }

/-! ## The SIGCHLD handler (lines 61-131) -/

/-- A status reported by `waitpid` with `WUNTRACED | WCONTINUED`: the child
exited, was killed by a signal, was stopped by a signal, or was continued. -/
inductive wstatus where
  | exited (code : Nat)
  | signaled (sig : Nat) (core : Bool)
  | stopped (sig : Nat)
  | continued
deriving DecidableEq, Repr

/-- The macro `WIFEXITED`. -/
def WIFEXITED : wstatus → Bool
  | .exited _ => true
  | _ => false

/-- The macro `WIFSIGNALED`. -/
def WIFSIGNALED : wstatus → Bool
  | .signaled _ _ => true
  | _ => false

/-- The macro `WCOREDUMP`. -/
def WCOREDUMP : wstatus → Bool
  | .signaled _ core => core
  | _ => false

/-- The macro `WIFSTOPPED`. -/
def WIFSTOPPED : wstatus → Bool
  | .stopped _ => true
  | _ => false

/-- The macro `WIFCONTINUED`. -/
def WIFCONTINUED : wstatus → Bool
  | .continued => true
  | _ => false

/-- The loops of the form
`for (i = 0; i < jobs_count; i++) if (p(jobs_32[i])) break;`, started at index
`i` with `k` iterations left: the value of `i` when the loop is left. -/
def find_from (p : job_t → Bool) (a : List job_t) : Nat → Nat → Nat
  | 0, i => i
  | k + 1, i => if p (a.getD i default) then i else find_from p a k (i + 1)

/-- The search loop run from index 0 over the `jobs_count` elements in use: the
first index whose element satisfies `p`, and `jobs_count` if there is none. -/
def find_index (p : job_t → Bool) (s : Shell) : Nat :=
  find_from p s.jobs_32 s.jobs_count 0

/-- The assignment `jobs_32[i].ended = v`. -/
def set_ended (i : Nat) (v : Bool) (s : Shell) : Shell :=
  { s with jobs_32 := s.jobs_32.set i { slot s i with ended := v } }

/-- The assignment `jobs_32[i].suspended = v`. -/
def set_suspended (i : Nat) (v : Bool) (s : Shell) : Shell :=
  { s with jobs_32 := s.jobs_32.set i { slot s i with suspended := v } }

/-- The body of the reaping loop (lines 70-128) for one report `(pid, status)`
returned by `waitpid`. -/
def reap_one (pid : Int) (status : wstatus) (s : Shell) : Shell :=
  let i := find_index (fun j => j.pid == pid) s
  if i ≥ s.jobs_count then s
  else
    let header := snprintf 128
      ("[".toList ++ fmt_d (slot s i).job_id ++ "] (".toList ++ fmt_d (slot s i).pid
        ++ ")  ".toList)
    let s := sig_printf STDOUT_FILENO header s
    if WIFSIGNALED status then
      let s := sig_printf STDOUT_FILENO "killed".toList s
      let s := if WCOREDUMP status then sig_printf STDOUT_FILENO " (core dumped)".toList s else s
      let s := sig_printf STDOUT_FILENO "  ".toList s
      let s := sig_printf STDOUT_FILENO (slot s i).command s
      let s := sig_printf STDOUT_FILENO "\n".toList s
      let s := set_ended i true s
      job_eliminate i s
    else if WIFSTOPPED status then
      let s := sig_printf STDOUT_FILENO "suspended  ".toList s
      let s := sig_printf STDOUT_FILENO (slot s i).command s
      let s := sig_printf STDOUT_FILENO "\n".toList s
      let s := set_suspended i true s
      if pid = s.fg_pid then { s with fg_pid := 0 } else s
    else if WIFCONTINUED status then
      let s := sig_printf STDOUT_FILENO "continued  ".toList s
      let s := sig_printf STDOUT_FILENO (slot s i).command s
      let s := sig_printf STDOUT_FILENO "\n".toList s
      set_suspended i false s
    else if WIFEXITED status then
      let s := sig_printf STDOUT_FILENO "finished  ".toList s
      let s := sig_printf STDOUT_FILENO (slot s i).command s
      let s := sig_printf STDOUT_FILENO "\n".toList s
      let s := set_ended i true s
      job_eliminate i s
    else s

/-- The handler `sigchld_handler`: `pending` lists what the successive calls of
`waitpid` return; the loop ends when the list is used up (waitpid then
returns 0 or -1) or at a value that is not positive. -/
def sigchld_handler : List (Int × wstatus) → Shell → Shell
  | [], s => s
  | (pid, status) :: rest, s =>
    if pid > 0 then sigchld_handler rest (reap_one pid status s) else s

/-! ## Built-in commands (lines 175-404) -/

/-- The text printed by the format `"[%d] (%d)  %s  %s\n"`. -/
def fmt_job_line (job_id pid : Int) (word label : List Char) : List Char :=
  "[".toList ++ fmt_d job_id ++ "] (".toList ++ fmt_d pid ++ ")  ".toList ++ word
    ++ "  ".toList ++ label ++ "\n".toList

/-- The function `jobs_command`: one `printf` for every element in use that has
not ended. -/
def jobs_command (s : Shell) : Shell :=
  (List.range s.jobs_count).foldl
    (fun s i =>
      if !(slot s i).ended then
        emit (Effect.printf (fmt_job_line (slot s i).job_id (slot s i).pid
          (if (slot s i).suspended then "suspended".toList else "running".toList)
          (slot s i).command)) s
      else s)
    s

/-- Lines 198-202 of `nuke_command`: SIGKILL to every element in use that has
not ended. -/
def nuke_all (s : Shell) : Shell :=
  (List.range s.jobs_count).foldl
    (fun s i =>
      if !(slot s i).ended then emit (Effect.kill (slot s i).pid Signal.SIGKILL) s else s)
    s

/-- The body of the loop of `nuke_command` (lines 207-250) for one argument. -/
def nuke_one (tok : List Char) (s : Shell) : Shell :=
  if tok.head? = some '%' then
    let job_id := to_int (strtol tok.tail).1
    if (strtol tok.tail).2 ≠ [] ∨ job_id ≤ 0 then
      emit (Effect.eprintf ("ERROR: bad argument for nuke: ".toList ++ tok ++ "\n".toList)) s
    else
      let j := find_index (fun e => e.job_id == job_id && !e.ended) s
      if j < s.jobs_count then emit (Effect.kill (slot s j).pid Signal.SIGKILL) s
      else emit (Effect.eprintf ("ERROR: no job ".toList ++ fmt_d job_id ++ "\n".toList)) s
  else
    let pid := to_int (strtol tok).1
    if (strtol tok).2 ≠ [] then
      emit (Effect.eprintf ("ERROR: bad argument for nuke: ".toList ++ tok ++ "\n".toList)) s
    else
      let j := find_index (fun e => e.pid == pid && !e.ended) s
      if j < s.jobs_count then emit (Effect.kill pid Signal.SIGKILL) s
      else emit (Effect.eprintf ("ERROR: no PID ".toList ++ fmt_d pid ++ "\n".toList)) s

/-- The function `nuke_command`; `toks` are the arguments after the word
`nuke`. -/
def nuke_command (toks : List (List Char)) (s : Shell) : Shell :=
  match toks with
  | [] => nuke_all s
  | _ => toks.foldl (fun s tok => nuke_one tok s) s

/-- How a call ends: it returns to its caller, the process exits inside it, it
is still in its polling loop when the given schedule of SIGCHLD deliveries is
used up, or the process image is replaced. -/
inductive Outcome where
  /-- The call returned. -/
  | returned (s : Shell)
  /-- The process left through `exit` or `_exit`. -/
  | exited (code : Int) (s : Shell)
  /-- The call is still polling after the last scheduled delivery. -/
  | polling (s : Shell)
  /-- The call `execvp` succeeded: the process now runs another program. -/
  | replaced (s : Shell)
deriving DecidableEq, Repr

/-- The state carried by an outcome. -/
def Outcome.state : Outcome → Shell
  | .returned s => s
  | .exited _ s => s
  | .polling s => s
  | .replaced s => s

/-- The exit test of the two polling loops (lines 328-345 and 501-515) for the
array index `idx` and the process id `pid`: the element at `idx` has ended or
is suspended, or no element in use has process id `pid`. -/
def wait_exit_test (idx : Nat) (pid : Int) (s : Shell) : Bool :=
  (slot s idx).ended || (slot s idx).suspended
    || !(find_index (fun e => e.pid == pid) s < s.jobs_count)

/-- The polling loops `while (1) ... usleep(1000);` (lines 326-348 and
499-517).  The handler interrupts the loop; `sched` gives, for each round of
the loop, the reports reaped by the handler between this test and the next
one.  The loop is left at the first test that succeeds. -/
def wait_loop (idx : Nat) (pid : Int) : List (List (Int × wstatus)) → Shell → Outcome
  | [], s => if wait_exit_test idx pid s then .returned s else .polling s
  | batch :: rest, s =>
    if wait_exit_test idx pid s then .returned s
    else wait_loop idx pid rest (sigchld_handler batch s)

/-- The statement `fg_pid = 0;` that follows a polling loop. -/
def after_wait : Outcome → Outcome
  | .returned s => .returned { s with fg_pid := 0 }
  | o => o

/-- Lines 314-350 of `fg_command`, once the job is found at `job_index` with
process id `the_pid`. -/
def fg_resume (job_index : Nat) (the_pid : Int) (sched : List (List (Int × wstatus)))
    (s : Shell) : Outcome :=
  let s :=
    if (slot s job_index).suspended then
      set_suspended job_index false (emit (Effect.kill the_pid Signal.SIGCONT) s)
    else s
  let s := { s with fg_pid := the_pid }
  after_wait (wait_loop job_index the_pid sched s)

/-- The function `fg_command`; `toks` starts with the word `fg`. -/
def fg_command (toks : List (List Char)) (sched : List (List (Int × wstatus)))
    (s : Shell) : Outcome :=
  match toks with
  | [_, arg] =>
    if arg.head? = some '%' then
      let job_id := to_int (strtol arg.tail).1
      if (strtol arg.tail).2 ≠ [] ∨ job_id ≤ 0 then
        .returned (emit (Effect.eprintf
          ("ERROR: bad argument for fg: ".toList ++ arg ++ "\n".toList)) s)
      else
        let i := find_index (fun e => e.job_id == job_id && !e.ended) s
        if i < s.jobs_count then fg_resume i (slot s i).pid sched s
        else .returned (emit (Effect.eprintf
          ("ERROR: no job ".toList ++ fmt_d job_id ++ "\n".toList)) s)
    else
      let pid_val := (strtol arg).1
      if (strtol arg).2 ≠ [] then
        .returned (emit (Effect.eprintf
          ("ERROR: bad argument for fg: ".toList ++ arg ++ "\n".toList)) s)
      else
        let i := find_index (fun e => e.pid == to_int pid_val && !e.ended) s
        if i < s.jobs_count then fg_resume i (to_int pid_val) sched s
        else .returned (emit (Effect.eprintf
          ("ERROR: no PID ".toList ++ fmt_d pid_val ++ "\n".toList)) s)
  | _ => .returned (emit (Effect.eprintf "ERROR: fg needs exactly one argument\n".toList) s)

/-- The function `bg_command`; `toks` starts with the word `bg`. -/
def bg_command (toks : List (List Char)) (s : Shell) : Shell :=
  match toks with
  | _ :: arg :: _ =>
    let job_id := to_int (strtol arg.tail).1
    if arg.head? ≠ some '%' then
      emit (Effect.eprintf ("ERROR: no job ".toList ++ fmt_d job_id ++ "\n".toList)) s
    else if (strtol arg.tail).2 ≠ [] ∨ job_id ≤ 0 then
      emit (Effect.eprintf ("ERROR: bad argument for bg: ".toList ++ arg ++ "\n".toList)) s
    else
      let jidx := find_index (fun e => e.job_id == job_id && e.suspended && !e.ended) s
      if jidx < s.jobs_count then
        let pid := (slot s jidx).pid
        let s := emit (Effect.kill pid Signal.SIGCONT) s
        let s := set_suspended jidx false s
        emit (Effect.printf (fmt_job_line (slot s jidx).job_id pid "running".toList
          (slot s jidx).command)) s
      else emit (Effect.eprintf ("ERROR: no job ".toList ++ fmt_d job_id ++ "\n".toList)) s
  | _ => emit (Effect.eprintf "ERROR: bg needs some arguments\n".toList) s

/-! ## eval (lines 409-521) -/

/-- What the operating system contributes to one call of `eval`: the value
returned by `fork`, whether `execvp` fails (read in the child only), and the
SIGCHLD deliveries during a foreground wait. -/
structure Env where
  fork_ret : Int
  exec_fails : Bool
  sched : List (List (Int × wstatus))
deriving DecidableEq, Repr

/-- The counting loop of lines 448-453. -/
def active_count (s : Shell) : Nat :=
  (List.range s.jobs_count).foldl
    (fun n i => if !(slot s i).ended then n + 1 else n) 0

/-- The element written by lines 477-482: `strncpy` keeps at most 255 bytes
of the command name. -/
def new_job (pid job_id : Int) (name : List Char) : job_t :=
  { pid := pid, job_id := job_id, ended := false, suspended := false,
    command := name.take 255 }

/-- Lines 476-485 of `eval`: the element at index `jobs_count` receives the
new job and the counters are incremented. -/
def record_job (pid : Int) (name : List Char) (s : Shell) : Shell :=
  { s with
    jobs_32 := s.jobs_32.set s.jobs_count (new_job pid s.next_job_id name)
    next_job_id := s.next_job_id + 1
    id_log := s.id_log ++ [s.next_job_id]
    jobs_count := s.jobs_count + 1
    active_jobs := s.active_jobs + 1 }

/-- Lines 446-520 of `eval`: the launch of an external command. -/
def launch (toks : List (List Char)) (name : List Char) (bg : Bool) (env : Env)
    (s : Shell) : Outcome :=
  if active_count s ≥ 32 then
    .returned (emit (Effect.eprintf "ERROR: too many jobs\n".toList) s)
  else
    let pid := env.fork_ret
    let s := emit (Effect.fork pid) s
    if pid < 0 then
      .returned (emit (Effect.eprintf
        ("ERROR: cannot run ".toList ++ name ++ "\n".toList)) s)
    else if pid = 0 then
      let s := emit (Effect.setpgid 0 0) s
      let s := emit (Effect.execvp name toks) s
      if env.exec_fails then
        let s := emit (Effect.eprintf
          ("ERROR: cannot run ".toList ++ name ++ "\n".toList)) s
        .exited 1 (emit (Effect.exit 1) s)
      else .replaced s
    else
      let k := s.jobs_count
      let s := record_job pid name s
      if bg then
        .returned (emit (Effect.printf
          (fmt_job_line (slot s k).job_id pid "running".toList (slot s k).command)) s)
      else
        after_wait (wait_loop k pid env.sched { s with fg_pid := pid })

/-- The function `eval`. -/
def eval (toks : List (List Char)) (bg : Bool) (env : Env) (s : Shell) : Outcome :=
  match toks with
  | [] => .returned s
  | name :: args =>
    if name = "quit".toList then
      if args ≠ [] then
        .returned (emit (Effect.eprintf "ERROR: quit takes no arguments\n".toList) s)
      else .exited 0 (emit (Effect.exit 0) s)
    else if name = "jobs".toList then
      if args ≠ [] then
        .returned (emit (Effect.eprintf "ERROR: jobs takes no arguments\n".toList) s)
      else .returned (jobs_command s)
    else if name = "nuke".toList then .returned (nuke_command args s)
    else if name = "fg".toList then fg_command toks env.sched s
    else if name = "bg".toList then .returned (bg_command toks s)
    else launch toks name bg env s

/-! ## Sessions -/

/-- What happens to the shell between two prompts when every SIGCHLD arrives
between two commands or during a polling loop (the schedule of `Env`): one
command is evaluated, or the SIGCHLD handler runs.  A delivery during the
recording of a job is an event of `AsyncEvent`. -/
inductive Event where
  | command (toks : List (List Char)) (bg : Bool) (env : Env)
  | sigchld (pending : List (Int × wstatus))
deriving DecidableEq, Repr

/-- The effect of one event. -/
def step : Event → Shell → Outcome
  | .command toks bg env, s => eval toks bg env s
  | .sigchld pending, s => .returned (sigchld_handler pending s)

/-- A session without a delivery of SIGCHLD inside the recording of a job: the
events in order, for as long as the calls return.  The sessions with such a
delivery are those of `async_run`. -/
def run : List Event → Shell → Outcome
  | [], s => .returned s
  | e :: es, s =>
    match step e s with
    | .returned s' => run es s'
    | o => o

/-- A state of some session of `run` started in `init`: a state the shell
reaches when no SIGCHLD is delivered inside the recording of a job.  The states
reached with such deliveries are those of `AsyncReachable`. -/
def Reachable (s : Shell) : Prop := ∃ evs, (run evs init).state = s

/-! ## Vocabulary of the properties -/

/-- The three states of a job. -/
inductive JobState where
  | Running
  | Stopped
  | Terminated
deriving DecidableEq, Repr

/-- The state of a job, read off its two flags. -/
def job_t.state (j : job_t) : JobState :=
  if j.ended then JobState.Terminated
  else if j.suspended then JobState.Stopped
  else JobState.Running

/-- The values of the C type `int` (and `pid_t`), 32 bits wide. -/
def is_int (x : Int) : Prop := -2147483648 ≤ x ∧ x ≤ 2147483647

instance (x : Int) : Decidable (is_int x) := by
  unfold is_int
  infer_instance

/-- What one effect adds to standard output. -/
def Effect.stdout : Effect → List Char
  | .write fd msg => if fd = STDOUT_FILENO then msg else []
  | .printf msg => msg
  | _ => []

/-- The text that a trace sends to standard output. -/
def stdout_text (t : List Effect) : List Char :=
  t.foldr (fun e acc => e.stdout ++ acc) []

/-- The status line `"[id] (pid)  word  label\n"` of the specification. -/
def status_line (id pid : Int) (word label : List Char) : List Char :=
  "[".toList ++ fmt_d id ++ "] (".toList ++ fmt_d pid ++ ")  ".toList ++ word
    ++ "  ".toList ++ label ++ "\n".toList

/-- The word of the status line that the reaper writes for a status. -/
def status_word : wstatus → List Char
  | .exited _ => "finished".toList
  | .signaled _ false => "killed".toList
  | .signaled _ true => "killed (core dumped)".toList
  | .stopped _ => "suspended".toList
  | .continued => "continued".toList

/-- The table invariant of the sessions of `run`: the array has its 32 elements, at
most 32 are in use, no element in use is marked ended, the job ids in use are
positive, below the id counter and increase along the table, the ids handed
out so far increase and are below the counter, `active_jobs` agrees with
`jobs_count`, the id counter is positive, every job id in use is one of the
ids handed out, and the id counter is 1 plus the number of ids handed out. -/
structure Inv (s : Shell) : Prop where
  len : s.jobs_32.length = 32
  cap : s.jobs_count ≤ 32
  live : ∀ j ∈ table s, j.ended = false
  ids_sorted : (table s).Pairwise (fun a b => a.job_id < b.job_id)
  ids_pos : ∀ j ∈ table s, 1 ≤ j.job_id
  ids_lt : ∀ j ∈ table s, j.job_id < s.next_job_id
  log_sorted : s.id_log.Pairwise (fun a b => a < b)
  log_lt : ∀ x ∈ s.id_log, x < s.next_job_id
  active : s.active_jobs = (s.jobs_count : Int)
  next_pos : 1 ≤ s.next_job_id
  logged : ∀ j ∈ table s, j.job_id ∈ s.id_log
  counter : s.next_job_id = 1 + (s.id_log.length : Int)

/-- The names that `eval` treats as built-in commands. -/
def builtin (name : List Char) : Prop :=
  name = "quit".toList ∨ name = "jobs".toList ∨ name = "nuke".toList
    ∨ name = "fg".toList ∨ name = "bg".toList

instance (name : List Char) : Decidable (builtin name) := by
  unfold builtin
  infer_instance

/-- Two states that differ at most in their traces: every global of the
program has the same value in both. -/
def same_globals (s s' : Shell) : Prop := s' = { s with trace := s'.trace }

instance (s s' : Shell) : Decidable (same_globals s s') := by
  unfold same_globals
  infer_instance

/-! ## Concrete sessions used as examples -/

/-- The environment of a command that forks successfully with child `pid` and
sees no SIGCHLD while it runs. -/
def quiet (pid : Int) : Env := { fork_ret := pid, exec_fails := false, sched := [] }

/-- A state whose table holds 32 running jobs: ids 1 to 32, pids 101 to 132. -/
def ex_full : Shell :=
  { init with
    jobs_count := 32
    next_job_id := 33
    jobs_32 := (List.range 32).map fun i =>
      { pid := 101 + (i : Int), job_id := 1 + (i : Int), command := "sleep".toList,
        ended := false, suspended := false }
    active_jobs := 32 }

/-- A state with two running background jobs: `sleep` (id 1, pid 10) and
`cat` (id 2, pid 20). -/
def ex_two : Shell :=
  { init with
    jobs_count := 2
    next_job_id := 3
    jobs_32 := [new_job 10 1 "sleep".toList, new_job 20 2 "cat".toList]
      ++ List.replicate 30 default
    active_jobs := 2
    id_log := [1, 2] }

/-- The session in which `sleep 100` is launched in the foreground with child
20 and no SIGCHLD has been delivered yet. -/
def ex_fg_session : List Event :=
  [Event.command ["sleep".toList, "100".toList] false (quiet 20)]

/-- The state of the shell while it polls for the foreground job of
`ex_fg_session`: `fg_pid` is 20 and the table holds job 1 with pid 20. -/
def ex_fg : Shell := (run ex_fg_session init).state

/-- A session that launches three background jobs `a`, `p`, `c` with pids 10,
20, 30 and in which `c` is then stopped. -/
def ex_three_session : List Event :=
  [Event.command ["a".toList] true (quiet 10),
   Event.command ["p".toList] true (quiet 20),
   Event.command ["c".toList] true (quiet 30),
   Event.sigchld [(30, wstatus.stopped 19)]]

/-- The state after `ex_three_session`: jobs 1 and 2 running, job 3 stopped. -/
def ex_three : Shell := (run ex_three_session init).state

/-- A session in which `a` runs in the background (pid 10) and `p` is then
launched in the foreground (pid 20); while the shell waits for `p`, first `a`
exits, then `p` is stopped, and two more rounds of the loop see no report. -/
def ex_stop_session : List Event :=
  [Event.command ["a".toList] true (quiet 10),
   Event.command ["p".toList] false
     { fork_ret := 20, exec_fails := false,
       sched := [[(10, wstatus.exited 0)], [(20, wstatus.stopped 19)], [], []] }]

/-- The effects performed between the state `s` and the later state `s'`. -/
def emitted (s s' : Shell) : List Effect := s'.trace.drop s.trace.length

/-- The jobs listing of a state: what `jobs_command` prints in it. -/
def jobs_listing (s : Shell) : List Effect := emitted s (jobs_command s)

/-- The word of a line of the jobs listing. -/
def listing_word (j : job_t) : List Char :=
  if j.state = JobState.Stopped then "suspended".toList else "running".toList

/-- The session that launches `sleep 100` in the background with child 1234. -/
def ex_bg_session : List Event :=
  [Event.command ["sleep".toList, "100".toList] true (quiet 1234)]

/-- The state after `ex_bg_session`: job 1, pid 1234, running. -/
def ex_bg : Shell := (run ex_bg_session init).state

/-- The handler `sigint_handler`. -/
def sigint_handler (s : Shell) : Outcome :=
  if s.fg_pid > 0 then Outcome.returned (emit (Effect.kill s.fg_pid Signal.SIGINT) s)
  else Outcome.returned s

/-- The handler `sigquit_handler`: without a foreground job it ends the shell
with `_exit(0)`. -/
def sigquit_handler (s : Shell) : Outcome :=
  if s.fg_pid > 0 then Outcome.returned (emit (Effect.kill s.fg_pid Signal.SIGQUIT) s)
  else Outcome.exited 0 (emit (Effect.exit 0) s)

/-- The handler `sigtstp_handler`. -/
def sigtstp_handler (s : Shell) : Outcome :=
  if s.fg_pid > 0 then Outcome.returned (emit (Effect.kill s.fg_pid Signal.SIGTSTP) s)
  else Outcome.returned s

/-- Delivery of `sig` to the single process `P` (POSIX `kill` with a positive
first argument). -/
def delivered_to_process (t : List Effect) (P : Int) (sig : Signal) : Prop :=
  Effect.kill P sig ∈ t

/-- Delivery of `sig` to every process of the process group `G` (POSIX `kill`
with the first argument `-G`). -/
def delivered_to_group (t : List Effect) (G : Int) (sig : Signal) : Prop :=
  Effect.kill (-G) sig ∈ t

instance (t : List Effect) (P : Int) (sig : Signal) : Decidable (delivered_to_process t P sig) := by
  unfold delivered_to_process
  infer_instance

instance (t : List Effect) (G : Int) (sig : Signal) : Decidable (delivered_to_group t G sig) := by
  unfold delivered_to_group
  infer_instance

/-! ## More vocabulary of the properties -/

/-- The messages of the `write` calls of a trace on the descriptor `fd`, one
item per call, in order. -/
def writes (fd : Int) (t : List Effect) : List (List Char) :=
  t.filterMap fun e =>
    match e with
    | .write f msg => if f = fd then some msg else none
    | _ => none

/-- The arguments of the successive calls of `sig_printf` that the reaper
makes for the entry `j` and a status (lines 86-124). -/
def reaper_fragments (j : job_t) : wstatus → List (List Char)
  | .exited _ =>
    [snprintf 128 ("[".toList ++ fmt_d j.job_id ++ "] (".toList ++ fmt_d j.pid ++ ")  ".toList),
     "finished  ".toList, j.command, "\n".toList]
  | .signaled _ core =>
    [snprintf 128 ("[".toList ++ fmt_d j.job_id ++ "] (".toList ++ fmt_d j.pid ++ ")  ".toList),
     "killed".toList] ++ (if core then [" (core dumped)".toList] else [])
      ++ ["  ".toList, j.command, "\n".toList]
  | .stopped _ =>
    [snprintf 128 ("[".toList ++ fmt_d j.job_id ++ "] (".toList ++ fmt_d j.pid ++ ")  ".toList),
     "suspended  ".toList, j.command, "\n".toList]
  | .continued =>
    [snprintf 128 ("[".toList ++ fmt_d j.job_id ++ "] (".toList ++ fmt_d j.pid ++ ")  ".toList),
     "continued  ".toList, j.command, "\n".toList]

/-- An effect of the kind `nuke` may perform: a SIGKILL or an error message. -/
def kill_or_error (e : Effect) : Prop :=
  (∃ pid, e = Effect.kill pid Signal.SIGKILL) ∨ (∃ msg, e = Effect.eprintf msg)

/-- A text that `strtol` reads to its end as a number. -/
def numeric (r : List Char) : Prop := (strtol r).2 = []

instance (r : List Char) : Decidable (numeric r) := by
  unfold numeric
  infer_instance

/-- A remainder of a `%` selector that is rejected: it is not numeric, or its
number, a C int, is not positive. -/
def bad_job_selector (r : List Char) : Prop :=
  ¬ numeric r ∨ ((strtol r).1 ≤ 0 ∧ is_int (strtol r).1)

instance (r : List Char) : Decidable (bad_job_selector r) := by
  unfold bad_job_selector
  infer_instance

/-- An error report: the state with one message added to standard error, the
message starting with "ERROR: ". -/
def reports_error (s s' : Shell) : Prop :=
  ∃ msg, s' = emit (Effect.eprintf ("ERROR: ".toList ++ msg)) s

/-- The environment of the launch of a program that cannot be executed, seen
from the shell: `fork` returns the child 50, and `execvp` fails in the child. -/
def ex_noexec_parent : Env := { fork_ret := 50, exec_fails := true, sched := [] }

/-- The same launch seen from the child: `fork` returns 0, `execvp` fails. -/
def ex_noexec_child : Env := { fork_ret := 0, exec_fails := true, sched := [] }

/-! ## parse_and_eval (lines 528-573) -/

/-- The test `*s == ' ' || *s == '\t' || *s == '\n'` of the skipping loops. -/
def is_blank (c : Char) : Bool := c == ' ' || c == '\t' || c == '\n'

/-- The characters that end a token (lines 561-562, `'\0'` apart). -/
def ends_token (c : Char) : Bool := c == '&' || c == ';' || is_blank c

/-- The condition of the loop that consumes a token (lines 561-562, `'\0'`
apart). -/
def in_token (c : Char) : Bool := !ends_token c

/-- The inner loop of `parse_and_eval` (lines 542-566) on the rest `s` of the
line, with the tokens stored so far: the tokens of the command, its `bg` flag
and the rest of the line after it.  A token is stored as a pointer; by the time
`eval` reads it the character after it has been overwritten with `'\0'`, so
its text is the run of characters up to the first one that ends a token.  The
first argument bounds the number of rounds; every round that goes on consumes
a character. -/
def scan_command : Nat → List Char → List (List Char) → List (List Char) × Bool × List Char
  | 0, s, toks => (toks, false, s)
  | n + 1, s, toks =>
    match s.dropWhile is_blank with
    | [] => (toks, false, [])
    | c :: r =>
      if c = '&' then (toks, true, r)
      else if c = ';' then (toks, false, r)
      else
        scan_command n ((c :: r).dropWhile in_token) (toks ++ [(c :: r).takeWhile in_token])

/-- The outer loop of `parse_and_eval` (lines 531-572).  `envs k` is the
environment of the `k`-th call of `eval`.  The array `toks` has `MAXLINE + 1`
elements: the stores `toks[0]` to `toks[t - 1]` and the store `toks[t] = NULL`
stay inside it exactly when `t ≤ MAXLINE`; otherwise the behaviour is
undefined, which is the result `none`. -/
def parse_loop : Nat → List Char → Nat → (Nat → Env) → Shell → Option Outcome
  | 0, _, _, _, sh => some (Outcome.returned sh)
  | n + 1, s, k, envs, sh =>
    match s.dropWhile is_blank with
    | [] => some (Outcome.returned sh)
    | c :: r =>
      if MAXLINE < (scan_command ((c :: r).length + 1) (c :: r) []).1.length then none
      else if (scan_command ((c :: r).length + 1) (c :: r) []).1.length > 0 then
        match eval (scan_command ((c :: r).length + 1) (c :: r) []).1
            (scan_command ((c :: r).length + 1) (c :: r) []).2.1 (envs k) sh with
        | Outcome.returned sh' =>
          parse_loop n (scan_command ((c :: r).length + 1) (c :: r) []).2.2 (k + 1) envs sh'
        | o => some o
      else parse_loop n (scan_command ((c :: r).length + 1) (c :: r) []).2.2 k envs sh

/-- The function `parse_and_eval` on a line `s`. -/
def parse_and_eval (s : List Char) (envs : Nat → Env) (sh : Shell) : Option Outcome :=
  parse_loop (s.length + 1) s 0 envs sh

/-! ## The command surface as the specification words it -/

/-- The segments of a line: the stretches ended by `';'`, by `'&'` or by the
end of the line, each with the mark "ended by `'&'`". -/
def segments : List Char → List (List Char × Bool)
  | [] => [([], false)]
  | c :: cs =>
    if c = '&' then ([], true) :: segments cs
    else if c = ';' then ([], false) :: segments cs
    else
      match segments cs with
      | (seg, b) :: more => (c :: seg, b) :: more
      | [] => [([c], false)]

/-- The tokens of a segment: the maximal runs of characters other than space,
tab and newline. -/
def tokens_of (seg : List Char) : List (List Char) :=
  (seg.splitOnP is_blank).filter fun w => !w.isEmpty

/-- The commands of a line: the token lists of its segments with their
background marks, the segments without a token left out. -/
def commands (line : List Char) : List (List (List Char) × Bool) :=
  ((segments line).map fun p => (tokens_of p.1, p.2)).filter fun c => !c.1.isEmpty

/-- Evaluation of a list of commands in order, the `k`-th call of `eval` in the
environment `envs k`, for as long as the calls return. -/
def eval_all : List (List (List Char) × Bool) → Nat → (Nat → Env) → Shell → Outcome
  | [], _, _, sh => Outcome.returned sh
  | c :: more, k, envs, sh =>
    match eval c.1 c.2 (envs k) sh with
    | Outcome.returned sh' => eval_all more (k + 1) envs sh'
    | o => o

/-- The first segment of a line, its mark and the rest of the line after the
character that ends it. -/
def split_first : List Char → List Char × Bool × List Char
  | [] => ([], false, [])
  | c :: cs =>
    if c = '&' then ([], true, cs)
    else if c = ';' then ([], false, cs)
    else ((c :: (split_first cs).1), (split_first cs).2.1, (split_first cs).2.2)

/-- The indices of the token array that are written while a command with the
tokens `toks` is scanned: `toks[0]` to `toks[t - 1]` (line 559) and
`toks[t] = NULL` (line 567), where `t` is the number of tokens. -/
def token_stores (toks : List (List Char)) : List Nat := List.range (toks.length + 1)

/-- A line made of `n` times the token `a` followed by a space. -/
def word_line : Nat → List Char
  | 0 => []
  | n + 1 => 'a' :: ' ' :: word_line n

/-- A line of 1025 tokens (2050 characters), as `getline` may return it. -/
def ex_long_line : List Char := word_line 1025

/-! ## SIGCHLD delivered while a job is being recorded

`main` installs `sigchld_handler` with `signal` (line 620) and no statement of
the program blocks SIGCHLD, so the handler also runs between two statements of
`eval`.  The definitions below place one run of the handler inside the
recording of a new job, between line 476 and line 484. -/

/-- Lines 477-485 of `eval` for the pointer `j = &jobs_32[k]` that line 476
has computed: the element at index `k` receives the new job and the counters
are incremented. -/
def record_job_at (k : Nat) (pid : Int) (name : List Char) (s : Shell) : Shell :=
  { s with
    jobs_32 := s.jobs_32.set k (new_job pid s.next_job_id name)
    next_job_id := s.next_job_id + 1
    id_log := s.id_log ++ [s.next_job_id]
    jobs_count := s.jobs_count + 1
    active_jobs := s.active_jobs + 1 }

/-- Lines 446-520 of `eval` when SIGCHLD is delivered during the recording of
the job: line 476 computes `j` from the value of `jobs_count` at that moment,
the handler runs and reaps the reports `pending`, then lines 477-485 write
through `j` and increment the counters.  The handler reads and writes only
elements below `jobs_count` and leaves `next_job_id` alone, so every point of
delivery after line 476 and before line 484 gives this result. -/
def launch_interrupted (toks : List (List Char)) (name : List Char) (bg : Bool) (env : Env)
    (pending : List (Int × wstatus)) (s : Shell) : Outcome :=
  if active_count s ≥ 32 then
    .returned (emit (Effect.eprintf "ERROR: too many jobs\n".toList) s)
  else
    let pid := env.fork_ret
    let s := emit (Effect.fork pid) s
    if pid < 0 then
      .returned (emit (Effect.eprintf
        ("ERROR: cannot run ".toList ++ name ++ "\n".toList)) s)
    else if pid = 0 then
      let s := emit (Effect.setpgid 0 0) s
      let s := emit (Effect.execvp name toks) s
      if env.exec_fails then
        let s := emit (Effect.eprintf
          ("ERROR: cannot run ".toList ++ name ++ "\n".toList)) s
        .exited 1 (emit (Effect.exit 1) s)
      else .replaced s
    else
      let k := s.jobs_count
      let s := sigchld_handler pending s
      let s := record_job_at k pid name s
      if bg then
        .returned (emit (Effect.printf
          (fmt_job_line (slot s k).job_id pid "running".toList (slot s k).command)) s)
      else
        after_wait (wait_loop k pid env.sched { s with fg_pid := pid })

/-- The function `eval` when SIGCHLD is delivered during the recording of the
job: the built-in commands record nothing and run as in `eval`. -/
def eval_interrupted (toks : List (List Char)) (bg : Bool) (env : Env)
    (pending : List (Int × wstatus)) (s : Shell) : Outcome :=
  match toks with
  | [] => .returned s
  | name :: _ =>
    if builtin name then eval toks bg env s
    else launch_interrupted toks name bg env pending s

/-- What happens to the shell between two prompts when SIGCHLD can also arrive
while a job is being recorded: an event of `Event`, or a command during whose
recording the handler runs with the reports `pending`. -/
inductive AsyncEvent where
  | event (e : Event)
  | interrupted (toks : List (List Char)) (bg : Bool) (env : Env)
      (pending : List (Int × wstatus))
deriving DecidableEq, Repr

/-- The effect of one event of `AsyncEvent`. -/
def async_step : AsyncEvent → Shell → Outcome
  | .event e, s => step e s
  | .interrupted toks bg env pending, s => eval_interrupted toks bg env pending s

/-- A session with deliveries of SIGCHLD between commands, during the polling
loops and during the recording of a job. -/
def async_run : List AsyncEvent → Shell → Outcome
  | [], s => .returned s
  | e :: es, s =>
    match async_step e s with
    | .returned s' => async_run es s'
    | o => o

/-- A state of the program: the state of some session of `async_run` started
in `init`. -/
def AsyncReachable (s : Shell) : Prop := ∃ evs, (async_run evs init).state = s

/-- The session `a &` (child 10), `p &` (child 20), `c &` (child 30), in which
process 10 exits while `c` is being recorded. -/
def ex_race_first_session : List AsyncEvent :=
  [AsyncEvent.event (Event.command ["a".toList] true (quiet 10)),
   AsyncEvent.event (Event.command ["p".toList] true (quiet 20)),
   AsyncEvent.interrupted ["c".toList] true (quiet 30) [(10, wstatus.exited 0)]]

/-- The session `a &` (child 10), `p &` (child 20), `c &` (child 30), in which
process 20, the last entry of the table, exits while `c` is being recorded. -/
def ex_race_last_session : List AsyncEvent :=
  [AsyncEvent.event (Event.command ["a".toList] true (quiet 10)),
   AsyncEvent.event (Event.command ["p".toList] true (quiet 20)),
   AsyncEvent.interrupted ["c".toList] true (quiet 30) [(20, wstatus.exited 0)]]

/-- The background launches `w &` with the children `first`, `first + 1`, ...,
`first + n - 1`, none of them disturbed by a signal. -/
def launches (first : Int) (n : Nat) : List AsyncEvent :=
  (List.range n).map fun i =>
    AsyncEvent.event (Event.command ["w".toList] true (quiet (first + (i : Int))))

/-- The session `ex_race_last_session` followed by 30 background launches. -/
def ex_race_fill_session : List AsyncEvent := ex_race_last_session ++ launches 100 30

/-! ## Array and loop lemmas -/

theorem find_from_spec (p : job_t → Bool) (a : List job_t) :
    ∀ k i, i ≤ find_from p a k i ∧ find_from p a k i ≤ i + k ∧
      (∀ m, i ≤ m → m < find_from p a k i → p (a.getD m default) = false) ∧
      (find_from p a k i < i + k → p (a.getD (find_from p a k i) default) = true) := by
  intro k
  induction k with
  | zero =>
    intro i
    refine ⟨Nat.le_refl _, Nat.le_refl _, ?_, ?_⟩
    · intro m h1 h2
      simp only [find_from] at h2
      omega
    · intro h
      simp only [find_from] at h
      omega
  | succ k ih =>
    intro i
    by_cases h : p (a.getD i default) = true
    · have e : find_from p a (k + 1) i = i := by simp only [find_from, h, if_true]
      rw [e]
      refine ⟨Nat.le_refl _, by omega, ?_, fun _ => h⟩
      intro m h1 h2
      omega
    · have e : find_from p a (k + 1) i = find_from p a k (i + 1) := by
        simp only [find_from, h, if_false, Bool.false_eq_true]
      rw [e]
      obtain ⟨h1, h2, h3, h4⟩ := ih (i + 1)
      refine ⟨by omega, by omega, ?_, ?_⟩
      · intro m hm1 hm2
        by_cases hmi : m = i
        · subst hmi
          simpa using h
        · exact h3 m (by omega) hm2
      · intro hlt
        exact h4 (by omega)

theorem shift_up_length : ∀ k i (a : List job_t), (shift_up k i a).length = a.length := by
  intro k
  induction k with
  | zero => intro i a; rfl
  | succ k ih =>
    intro i a
    simp only [shift_up]
    rw [ih]
    simp

theorem shift_up_getElem? : ∀ k i (a : List job_t) (m : Nat), i + k < a.length →
    (shift_up k i a)[m]? = if i ≤ m ∧ m < i + k then a[m + 1]? else a[m]? := by
  intro k
  induction k with
  | zero =>
    intro i a m _
    have : ¬ (i ≤ m ∧ m < i + 0) := by omega
    simp only [shift_up, this, if_false]
  | succ k ih =>
    intro i a m h
    simp only [shift_up]
    rw [ih (i + 1) _ m (by simpa using (by omega : i + 1 + k < a.length))]
    by_cases c1 : i + 1 ≤ m ∧ m < i + 1 + k
    · have c2 : i ≤ m ∧ m < i + (k + 1) := by omega
      rw [if_pos c1, if_pos c2, List.getElem?_set]
      have : ¬ i = m + 1 := by omega
      simp [this]
    · rw [if_neg c1]
      by_cases c3 : m = i
      · subst c3
        have c2 : m ≤ m ∧ m < m + (k + 1) := by omega
        rw [if_pos c2, List.getElem?_set]
        have hm : m < a.length := by omega
        have hm1 : m + 1 < a.length := by omega
        simp [hm, List.getElem?_eq_getElem hm1]
      · have c2 : ¬ (i ≤ m ∧ m < i + (k + 1)) := by omega
        rw [if_neg c2, List.getElem?_set]
        have : ¬ i = m := fun e => c3 e.symm
        simp [this]

theorem slot_eq (s : Shell) (i : Nat) : slot s i = (s.jobs_32[i]?).getD default := by
  simp [slot]

theorem table_getElem? (s : Shell) (m : Nat) :
    (table s)[m]? = if m < s.jobs_count then s.jobs_32[m]? else none := by
  simp [table, List.getElem?_take]

theorem table_length (s : Shell) (h : s.jobs_count ≤ s.jobs_32.length) :
    (table s).length = s.jobs_count := by
  simp [table, h]

theorem table_getElem?_slot (s : Shell) (i : Nat) (hi : i < s.jobs_count)
    (h : s.jobs_count ≤ s.jobs_32.length) : (table s)[i]? = some (slot s i) := by
  have hi' : i < s.jobs_32.length := by omega
  rw [table_getElem?, if_pos hi, slot_eq, List.getElem?_eq_getElem hi']
  rfl

theorem slot_mem_table (s : Shell) (i : Nat) (hi : i < s.jobs_count)
    (h : s.jobs_count ≤ s.jobs_32.length) : slot s i ∈ table s :=
  List.mem_iff_getElem?.mpr ⟨i, table_getElem?_slot s i hi h⟩

theorem mem_table_iff (s : Shell) (j : job_t) (h : s.jobs_count ≤ s.jobs_32.length) :
    j ∈ table s ↔ ∃ i, i < s.jobs_count ∧ slot s i = j := by
  constructor
  · intro hj
    obtain ⟨i, hi⟩ := List.mem_iff_getElem?.mp hj
    have hlt : i < s.jobs_count := by
      rw [table_getElem?] at hi
      by_contra hc
      rw [if_neg hc] at hi
      exact Option.noConfusion hi
    refine ⟨i, hlt, ?_⟩
    rw [table_getElem?_slot s i hlt h] at hi
    exact Option.some.inj hi
  · rintro ⟨i, hi, rfl⟩
    exact slot_mem_table s i hi h

theorem find_index_le (p : job_t → Bool) (s : Shell) : find_index p s ≤ s.jobs_count := by
  have := (find_from_spec p s.jobs_32 s.jobs_count 0).2.1
  simpa [find_index] using this

theorem find_index_sat (p : job_t → Bool) (s : Shell) (h : find_index p s < s.jobs_count) :
    p (slot s (find_index p s)) = true := by
  have := (find_from_spec p s.jobs_32 s.jobs_count 0).2.2.2
  exact this (by simpa [find_index] using h)

theorem find_index_first (p : job_t → Bool) (s : Shell) (m : Nat)
    (h : m < find_index p s) : p (slot s m) = false :=
  (find_from_spec p s.jobs_32 s.jobs_count 0).2.2.1 m (Nat.zero_le _) h

theorem find_index_lt_of_slot (p : job_t → Bool) (s : Shell) (i : Nat)
    (hp : p (slot s i) = true) : find_index p s ≤ i := by
  by_contra hc
  have := find_index_first p s i (by omega)
  rw [hp] at this
  exact Bool.noConfusion this

theorem find_index_lt_of_mem (p : job_t → Bool) (s : Shell) (j : job_t)
    (h : s.jobs_count ≤ s.jobs_32.length) (hj : j ∈ table s) (hp : p j = true) :
    find_index p s < s.jobs_count := by
  obtain ⟨i, hi, rfl⟩ := (mem_table_iff s j h).mp hj
  have := find_index_lt_of_slot p s i hp
  omega

theorem find_index_ge_of_forall (p : job_t → Bool) (s : Shell)
    (h : s.jobs_count ≤ s.jobs_32.length) (hp : ∀ j ∈ table s, p j = false) :
    ¬ find_index p s < s.jobs_count := by
  intro hlt
  have h1 := find_index_sat p s hlt
  have h2 := hp _ (slot_mem_table s _ hlt h)
  rw [h1] at h2
  exact Bool.noConfusion h2

theorem table_job_eliminate (s : Shell) (i : Nat) (hi : i < s.jobs_count)
    (h : s.jobs_count ≤ s.jobs_32.length) :
    table (job_eliminate (i : Int) s) = (table s).eraseIdx i := by
  have hg : ¬ ((i : Int) < 0 ∨ (i : Int) ≥ (s.jobs_count : Int)) := by omega
  apply List.ext_getElem?
  intro m
  simp only [job_eliminate, if_neg hg, table, Int.toNat_ofNat, List.getElem?_take,
    List.getElem?_eraseIdx]
  rw [shift_up_getElem? _ _ _ _ (by omega)]
  by_cases c1 : m < s.jobs_count - 1
  · by_cases c2 : m < i
    · have c3 : ¬ (i ≤ m ∧ m < i + (s.jobs_count - 1 - i)) := by omega
      have c4 : m < s.jobs_count := by omega
      simp [c1, c2, c3, c4]
    · have c3 : i ≤ m ∧ m < i + (s.jobs_count - 1 - i) := by omega
      have c4 : m + 1 < s.jobs_count := by omega
      simp [c1, c2, c3, c4]
  · by_cases c2 : m < i
    · omega
    · have c4 : ¬ m + 1 < s.jobs_count := by omega
      simp [c1, c2, c4]

theorem table_set_of_lt (s : Shell) (i : Nat) (x : job_t) :
    table { s with jobs_32 := s.jobs_32.set i x } = (table s).set i x := by
  apply List.ext_getElem?
  intro m
  simp only [table, List.getElem?_take, List.getElem?_set, List.length_take]
  by_cases c1 : m < s.jobs_count
  · by_cases c2 : i = m
    · subst c2
      by_cases c3 : i < s.jobs_32.length
      · simp [c1, c3]
      · simp [c1, c3]
    · simp [c1, c2]
  · by_cases c2 : i = m
    · subst c2
      simp [c1]
    · simp [c1, c2]

/-! ## Frame facts of the elementary updates -/

@[simp] theorem emit_jobs_32 (e : Effect) (s : Shell) : (emit e s).jobs_32 = s.jobs_32 := rfl
@[simp] theorem emit_jobs_count (e : Effect) (s : Shell) :
    (emit e s).jobs_count = s.jobs_count := rfl
@[simp] theorem emit_next_job_id (e : Effect) (s : Shell) :
    (emit e s).next_job_id = s.next_job_id := rfl
@[simp] theorem emit_active_jobs (e : Effect) (s : Shell) :
    (emit e s).active_jobs = s.active_jobs := rfl
@[simp] theorem emit_count (e : Effect) (s : Shell) : (emit e s).count = s.count := rfl
@[simp] theorem emit_fg_pid (e : Effect) (s : Shell) : (emit e s).fg_pid = s.fg_pid := rfl
@[simp] theorem emit_id_log (e : Effect) (s : Shell) : (emit e s).id_log = s.id_log := rfl
@[simp] theorem emit_slot (e : Effect) (s : Shell) (i : Nat) : slot (emit e s) i = slot s i := rfl
@[simp] theorem emit_table (e : Effect) (s : Shell) : table (emit e s) = table s := rfl
@[simp] theorem emit_find_index (p : job_t → Bool) (e : Effect) (s : Shell) :
    find_index p (emit e s) = find_index p s := rfl

@[simp] theorem sig_printf_eq (fd : Int) (msg : List Char) (s : Shell) :
    sig_printf fd msg s = emit (Effect.write fd msg) s := rfl

theorem take_set_comm (a : List job_t) (n i : Nat) (x : job_t) :
    (a.set i x).take n = (a.take n).set i x := by
  have := table_set_of_lt
    { jobs_count := n, next_job_id := 0, jobs_32 := a, active_jobs := 0, count := 0,
      fg_pid := 0, trace := [], id_log := [] } i x
  simpa [table] using this

theorem eraseIdx_set_same (l : List job_t) (i : Nat) (x : job_t) :
    (l.set i x).eraseIdx i = l.eraseIdx i := by
  apply List.ext_getElem?
  intro m
  simp only [List.getElem?_eraseIdx, List.getElem?_set]
  by_cases c : m < i
  · have : ¬ i = m := by omega
    simp [c, this]
  · have : ¬ i = m + 1 := by omega
    simp [c, this]

theorem reap_one_absent (pid : Int) (status : wstatus) (s : Shell)
    (h : ¬ find_index (fun j => j.pid == pid) s < s.jobs_count) :
    reap_one pid status s = s := by
  unfold reap_one
  simp only [ge_iff_le]
  rw [if_pos (by omega)]

/-- The reaper's effect on the table when the process id is found at index
`find_index`. -/
theorem reap_one_table (pid : Int) (status : wstatus) (s : Shell)
    (hlen : s.jobs_count ≤ s.jobs_32.length)
    (h : find_index (fun j => j.pid == pid) s < s.jobs_count) :
    table (reap_one pid status s) =
      match status with
      | .exited _ => (table s).eraseIdx (find_index (fun j => j.pid == pid) s)
      | .signaled _ _ => (table s).eraseIdx (find_index (fun j => j.pid == pid) s)
      | .stopped _ => (table s).set (find_index (fun j => j.pid == pid) s)
          { slot s (find_index (fun j => j.pid == pid) s) with suspended := true }
      | .continued => (table s).set (find_index (fun j => j.pid == pid) s)
          { slot s (find_index (fun j => j.pid == pid) s) with suspended := false } := by
  have hge : ¬ find_index (fun j => j.pid == pid) s ≥ s.jobs_count := by omega
  unfold reap_one
  cases status with
  | exited code =>
    simp only [hge, if_false, WIFSIGNALED, WIFSTOPPED, WIFCONTINUED, WIFEXITED, if_true,
      Bool.false_eq_true, sig_printf_eq, set_ended]
    rw [table_job_eliminate _ _ (by simpa using h) (by simpa using hlen), table_set_of_lt]
    simp [eraseIdx_set_same]
  | signaled sig core =>
    simp only [hge, if_false, WIFSIGNALED, if_true, sig_printf_eq, set_ended]
    rw [table_job_eliminate _ _ (by cases core <;> simpa using h)
      (by cases core <;> simpa using hlen), table_set_of_lt]
    cases core <;> simp [eraseIdx_set_same, WCOREDUMP]
  | stopped sig =>
    simp only [hge, if_false, WIFSIGNALED, WIFSTOPPED, if_true, Bool.false_eq_true,
      sig_printf_eq, set_suspended]
    split <;> simp [table, take_set_comm]
  | continued =>
    simp only [hge, if_false, WIFSIGNALED, WIFSTOPPED, WIFCONTINUED, if_true,
      Bool.false_eq_true, sig_printf_eq, set_suspended]
    simp [table, take_set_comm]

/-! ## The table invariant is kept by every operation -/

theorem map_set_same {β : Type} (f : job_t → β) (l : List job_t) (i : Nat) (x : job_t)
    (h : ∀ y, l[i]? = some y → f x = f y) : (l.set i x).map f = l.map f := by
  apply List.ext_getElem?
  intro m
  simp only [List.getElem?_map, List.getElem?_set]
  by_cases c : i = m
  · subst c
    by_cases c2 : i < l.length
    · have e : l[i]? = some l[i] := List.getElem?_eq_getElem c2
      rw [if_pos rfl, if_pos c2, e]
      simp only [Option.map_some']
      rw [h _ e]
    · rw [if_pos rfl, if_neg c2]
      have : l[i]? = none := List.getElem?_eq_none (by omega)
      rw [this]
  · rw [if_neg c]

theorem Inv_of_table {s s' : Shell} (hs : Inv s) (hlen : s'.jobs_32.length = 32)
    (hcap : s'.jobs_count ≤ s.jobs_count) (hnext : s'.next_job_id = s.next_job_id)
    (hlog : s'.id_log = s.id_log) (hact : s'.active_jobs = (s'.jobs_count : Int))
    (hids : ((table s').map fun j => j.job_id).Sublist ((table s).map fun j => j.job_id))
    (hlive : ∀ j ∈ table s', j.ended = false) : Inv s' := by
  have hmem : ∀ j ∈ table s', ∃ j0 ∈ table s, j0.job_id = j.job_id := by
    intro j hj
    have : j.job_id ∈ (table s).map fun j => j.job_id :=
      hids.subset (List.mem_map.mpr ⟨j, hj, rfl⟩)
    obtain ⟨j0, h0, e0⟩ := List.mem_map.mp this
    exact ⟨j0, h0, e0⟩
  refine ⟨hlen, ?_, hlive, ?_, ?_, ?_, ?_, ?_, hact, by rw [hnext]; exact hs.next_pos, ?_,
    by rw [hnext, hlog]; exact hs.counter⟩
  · have := hs.cap
    omega
  · have h1 : ((table s).map fun j => j.job_id).Pairwise (fun a b => a < b) :=
      List.pairwise_map.mpr hs.ids_sorted
    exact List.pairwise_map.mp (h1.sublist hids)
  · intro j hj
    obtain ⟨j0, h0, e0⟩ := hmem j hj
    rw [← e0]
    exact hs.ids_pos j0 h0
  · intro j hj
    obtain ⟨j0, h0, e0⟩ := hmem j hj
    rw [← e0, hnext]
    exact hs.ids_lt j0 h0
  · rw [hlog]
    exact hs.log_sorted
  · intro x hx
    rw [hlog] at hx
    rw [hnext]
    exact hs.log_lt x hx
  · intro j hj
    obtain ⟨j0, h0, e0⟩ := hmem j hj
    rw [← e0, hlog]
    exact hs.logged j0 h0

theorem Inv_frame {s s' : Shell} (hs : Inv s) (h1 : s'.jobs_32 = s.jobs_32)
    (h2 : s'.jobs_count = s.jobs_count) (h3 : s'.next_job_id = s.next_job_id)
    (h4 : s'.id_log = s.id_log) (h5 : s'.active_jobs = s.active_jobs) : Inv s' := by
  have ht : table s' = table s := by simp [table, h1, h2]
  refine Inv_of_table hs (by rw [h1]; exact hs.len) (by omega) h3 h4 ?_ ?_ ?_
  · rw [h5, h2]
    exact hs.active
  · rw [ht]
  · rw [ht]
    exact hs.live

theorem Inv_emit {s : Shell} (hs : Inv s) (e : Effect) : Inv (emit e s) :=
  Inv_frame hs rfl rfl rfl rfl rfl

theorem Inv_le_len {s : Shell} (hs : Inv s) : s.jobs_count ≤ s.jobs_32.length := by
  have h1 := hs.len
  have h2 := hs.cap
  omega

theorem Inv_set_suspended {s : Shell} (hs : Inv s) (i : Nat) (v : Bool)
    (hi : i < s.jobs_count) : Inv (set_suspended i v s) := by
  have hslot := table_getElem?_slot s i hi (Inv_le_len hs)
  have ht : table (set_suspended i v s) = (table s).set i { slot s i with suspended := v } := by
    simp [set_suspended, table, take_set_comm]
  refine Inv_of_table hs ?_ (Nat.le_refl _) rfl rfl hs.active ?_ ?_
  · simp [set_suspended, hs.len]
  · rw [ht, map_set_same]
    intro y hy
    rw [hslot] at hy
    cases hy
    rfl
  · intro j hj
    rw [ht] at hj
    rcases List.mem_or_eq_of_mem_set hj with h | h
    · exact hs.live j h
    · rw [h]
      exact hs.live (slot s i) (slot_mem_table s i hi (Inv_le_len hs))

/-- Closed form of the reaper's handling of a killed-by-signal report whose pid
is found in the table. -/
theorem reap_one_signaled (pid : Int) (sig : Nat) (core : Bool) (s : Shell)
    (h : find_index (fun j => j.pid == pid) s < s.jobs_count) :
    reap_one pid (.signaled sig core) s =
      job_eliminate (find_index (fun j => j.pid == pid) s : Nat)
        (set_ended (find_index (fun j => j.pid == pid) s) true
          { s with trace := s.trace ++
              ([Effect.write STDOUT_FILENO (snprintf 128
                  ("[".toList ++ fmt_d (slot s (find_index (fun j => j.pid == pid) s)).job_id
                    ++ "] (".toList ++ fmt_d (slot s (find_index (fun j => j.pid == pid) s)).pid
                    ++ ")  ".toList)),
                Effect.write STDOUT_FILENO "killed".toList]
              ++ (if core then [Effect.write STDOUT_FILENO " (core dumped)".toList] else [])
              ++ [Effect.write STDOUT_FILENO "  ".toList,
                Effect.write STDOUT_FILENO
                  (slot s (find_index (fun j => j.pid == pid) s)).command,
                Effect.write STDOUT_FILENO "\n".toList]) }) := by
  have hge : ¬ find_index (fun j => j.pid == pid) s ≥ s.jobs_count := by omega
  have hle : ¬ s.jobs_count ≤ find_index (fun j => j.pid == pid) s := by omega
  unfold reap_one
  cases core <;>
    simp [hge, hle, WIFSIGNALED, WCOREDUMP, emit, set_ended, job_eliminate, slot_eq]

theorem reap_one_exited (pid : Int) (code : Nat) (s : Shell)
    (h : find_index (fun j => j.pid == pid) s < s.jobs_count) :
    reap_one pid (.exited code) s =
      job_eliminate (find_index (fun j => j.pid == pid) s : Nat)
        (set_ended (find_index (fun j => j.pid == pid) s) true
          { s with trace := s.trace ++
              [Effect.write STDOUT_FILENO (snprintf 128
                  ("[".toList ++ fmt_d (slot s (find_index (fun j => j.pid == pid) s)).job_id
                    ++ "] (".toList ++ fmt_d (slot s (find_index (fun j => j.pid == pid) s)).pid
                    ++ ")  ".toList)),
                Effect.write STDOUT_FILENO "finished  ".toList,
                Effect.write STDOUT_FILENO
                  (slot s (find_index (fun j => j.pid == pid) s)).command,
                Effect.write STDOUT_FILENO "\n".toList] }) := by
  have hge : ¬ find_index (fun j => j.pid == pid) s ≥ s.jobs_count := by omega
  have hle : ¬ s.jobs_count ≤ find_index (fun j => j.pid == pid) s := by omega
  unfold reap_one
  simp [hge, hle, WIFSIGNALED, WIFSTOPPED, WIFCONTINUED, WIFEXITED, emit, set_ended,
    job_eliminate, slot_eq]

theorem reap_one_stopped (pid : Int) (sig : Nat) (s : Shell)
    (h : find_index (fun j => j.pid == pid) s < s.jobs_count) :
    reap_one pid (.stopped sig) s =
      { set_suspended (find_index (fun j => j.pid == pid) s) true s with
        fg_pid := if pid = s.fg_pid then 0 else s.fg_pid
        trace := s.trace ++
          [Effect.write STDOUT_FILENO (snprintf 128
              ("[".toList ++ fmt_d (slot s (find_index (fun j => j.pid == pid) s)).job_id
                ++ "] (".toList ++ fmt_d (slot s (find_index (fun j => j.pid == pid) s)).pid
                ++ ")  ".toList)),
            Effect.write STDOUT_FILENO "suspended  ".toList,
            Effect.write STDOUT_FILENO
              (slot s (find_index (fun j => j.pid == pid) s)).command,
            Effect.write STDOUT_FILENO "\n".toList] } := by
  have hge : ¬ find_index (fun j => j.pid == pid) s ≥ s.jobs_count := by omega
  unfold reap_one
  have hle : ¬ s.jobs_count ≤ find_index (fun j => j.pid == pid) s := by omega
  simp only [ge_iff_le, hle, if_false, WIFSIGNALED, WIFSTOPPED, Bool.false_eq_true, if_true]
  by_cases c : pid = s.fg_pid
  · have c' : pid = s.fg_pid := c
    simp [emit, set_suspended, slot_eq, c']
  · simp [emit, set_suspended, slot_eq, c]

theorem reap_one_continued (pid : Int) (s : Shell)
    (h : find_index (fun j => j.pid == pid) s < s.jobs_count) :
    reap_one pid .continued s =
      { set_suspended (find_index (fun j => j.pid == pid) s) false s with
        trace := s.trace ++
          [Effect.write STDOUT_FILENO (snprintf 128
              ("[".toList ++ fmt_d (slot s (find_index (fun j => j.pid == pid) s)).job_id
                ++ "] (".toList ++ fmt_d (slot s (find_index (fun j => j.pid == pid) s)).pid
                ++ ")  ".toList)),
            Effect.write STDOUT_FILENO "continued  ".toList,
            Effect.write STDOUT_FILENO
              (slot s (find_index (fun j => j.pid == pid) s)).command,
            Effect.write STDOUT_FILENO "\n".toList] } := by
  have hge : ¬ find_index (fun j => j.pid == pid) s ≥ s.jobs_count := by omega
  unfold reap_one
  simp [hge, WIFSIGNALED, WIFSTOPPED, WIFCONTINUED, emit, set_suspended, slot_eq]

theorem job_eliminate_of_lt (s : Shell) (i : Nat) (hi : i < s.jobs_count) :
    job_eliminate (i : Int) s =
      { s with
        jobs_32 := shift_up (s.jobs_count - 1 - i) i s.jobs_32
        jobs_count := s.jobs_count - 1
        active_jobs := s.active_jobs - 1 } := by
  have hg : ¬ ((i : Int) < 0 ∨ (i : Int) ≥ (s.jobs_count : Int)) := by omega
  simp only [job_eliminate, if_neg hg, Int.toNat_ofNat]

theorem reap_one_frame (pid : Int) (status : wstatus) (s : Shell) :
    (reap_one pid status s).next_job_id = s.next_job_id ∧
    (reap_one pid status s).id_log = s.id_log ∧
    (reap_one pid status s).count = s.count ∧
    (reap_one pid status s).jobs_32.length = s.jobs_32.length := by
  by_cases h : find_index (fun j => j.pid == pid) s < s.jobs_count
  · cases status with
    | exited code =>
      rw [reap_one_exited pid code s h, job_eliminate_of_lt _ _ (by simpa [set_ended] using h)]
      simp [set_ended, shift_up_length]
    | signaled sig core =>
      rw [reap_one_signaled pid sig core s h,
        job_eliminate_of_lt _ _ (by simpa [set_ended] using h)]
      simp [set_ended, shift_up_length]
    | stopped sig =>
      rw [reap_one_stopped pid sig s h]
      simp [set_suspended]
    | continued =>
      rw [reap_one_continued pid s h]
      simp [set_suspended]
  · rw [reap_one_absent pid status s h]
    simp

theorem reap_one_counts (pid : Int) (status : wstatus) (s : Shell)
    (h : find_index (fun j => j.pid == pid) s < s.jobs_count) :
    ((reap_one pid status s).jobs_count =
      if WIFSIGNALED status || WIFEXITED status then s.jobs_count - 1 else s.jobs_count) ∧
    ((reap_one pid status s).active_jobs =
      if WIFSIGNALED status || WIFEXITED status then s.active_jobs - 1 else s.active_jobs) := by
  cases status with
  | exited code =>
    rw [reap_one_exited pid code s h, job_eliminate_of_lt _ _ (by simpa [set_ended] using h)]
    simp [set_ended, WIFSIGNALED, WIFEXITED]
  | signaled sig core =>
    rw [reap_one_signaled pid sig core s h,
      job_eliminate_of_lt _ _ (by simpa [set_ended] using h)]
    simp [set_ended, WIFSIGNALED, WIFEXITED]
  | stopped sig =>
    rw [reap_one_stopped pid sig s h]
    simp [set_suspended, WIFSIGNALED, WIFEXITED]
  | continued =>
    rw [reap_one_continued pid s h]
    simp [set_suspended, WIFSIGNALED, WIFEXITED]

theorem Inv_reap_one {s : Shell} (hs : Inv s) (pid : Int) (status : wstatus) :
    Inv (reap_one pid status s) := by
  by_cases h : find_index (fun j => j.pid == pid) s < s.jobs_count
  · obtain ⟨f1, f2, _, f4⟩ := reap_one_frame pid status s
    obtain ⟨c1, c2⟩ := reap_one_counts pid status s h
    have ht := reap_one_table pid status s (Inv_le_len hs) h
    have hslot := table_getElem?_slot s _ h (Inv_le_len hs)
    have hact := hs.active
    refine Inv_of_table hs (by rw [f4]; exact hs.len) ?_ f1 f2 ?_ ?_ ?_
    · rw [c1]
      split <;> omega
    · rw [c1, c2]
      split <;> omega
    · rw [ht]
      cases status with
      | exited code => exact (List.eraseIdx_sublist _ _).map _
      | signaled sig core => exact (List.eraseIdx_sublist _ _).map _
      | stopped sig =>
        simp only
        rw [map_set_same]
        intro y hy
        rw [hslot] at hy
        cases hy
        rfl
      | continued =>
        simp only
        rw [map_set_same]
        intro y hy
        rw [hslot] at hy
        cases hy
        rfl
    · intro j hj
      rw [ht] at hj
      cases status with
      | exited code => exact hs.live j ((List.eraseIdx_sublist _ _).subset hj)
      | signaled sig core => exact hs.live j ((List.eraseIdx_sublist _ _).subset hj)
      | stopped sig =>
        rcases List.mem_or_eq_of_mem_set hj with h' | h'
        · exact hs.live j h'
        · rw [h']
          exact hs.live (slot s _) (slot_mem_table s _ h (Inv_le_len hs))
      | continued =>
        rcases List.mem_or_eq_of_mem_set hj with h' | h'
        · exact hs.live j h'
        · rw [h']
          exact hs.live (slot s _) (slot_mem_table s _ h (Inv_le_len hs))
  · rw [reap_one_absent pid status s h]
    exact hs

theorem Inv_sigchld_handler {s : Shell} (hs : Inv s) (pending : List (Int × wstatus)) :
    Inv (sigchld_handler pending s) := by
  induction pending generalizing s with
  | nil => exact hs
  | cons r rest ih =>
    obtain ⟨pid, status⟩ := r
    simp only [sigchld_handler]
    split
    · exact ih (Inv_reap_one hs pid status)
    · exact hs

/-! ## Commands that only add to the trace -/

theorem same_globals_refl (s : Shell) : same_globals s s := rfl

theorem same_globals_trans {a b c : Shell} (h1 : same_globals a b) (h2 : same_globals b c) :
    same_globals a c := by
  unfold same_globals at *
  rw [h2, h1]

theorem same_globals_emit (e : Effect) (s : Shell) : same_globals s (emit e s) := rfl

theorem same_globals_foldl {α : Type} (f : Shell → α → Shell)
    (hf : ∀ s x, same_globals s (f s x)) (l : List α) (s : Shell) :
    same_globals s (l.foldl f s) := by
  induction l generalizing s with
  | nil => exact same_globals_refl s
  | cons x xs ih => exact same_globals_trans (hf s x) (ih (f s x))

theorem same_globals_Inv {s s' : Shell} (h : same_globals s s') (hs : Inv s) : Inv s' := by
  unfold same_globals at h
  exact Inv_frame hs (by rw [h]) (by rw [h]) (by rw [h]) (by rw [h]) (by rw [h])

theorem jobs_command_same (s : Shell) : same_globals s (jobs_command s) := by
  unfold jobs_command
  apply same_globals_foldl
  intro s i
  split
  · exact same_globals_emit _ s
  · exact same_globals_refl s

theorem nuke_all_same (s : Shell) : same_globals s (nuke_all s) := by
  unfold nuke_all
  apply same_globals_foldl
  intro s i
  split
  · exact same_globals_emit _ s
  · exact same_globals_refl s

theorem nuke_one_same (tok : List Char) (s : Shell) : same_globals s (nuke_one tok s) := by
  unfold nuke_one
  simp only
  split_ifs <;> exact same_globals_emit _ s

theorem nuke_command_same (toks : List (List Char)) (s : Shell) :
    same_globals s (nuke_command toks s) := by
  unfold nuke_command
  split
  · exact nuke_all_same s
  · exact same_globals_foldl _ (fun s tok => nuke_one_same tok s) _ s

/-! ## The counting loop and the registration of a job -/

theorem active_count_aux (s : Shell) (h : s.jobs_count ≤ s.jobs_32.length)
    (hlive : ∀ j ∈ table s, j.ended = false) :
    ∀ n, n ≤ s.jobs_count →
      (List.range n).foldl (fun k i => if !(slot s i).ended then k + 1 else k) 0 = n := by
  intro n
  induction n with
  | zero => intro _; rfl
  | succ n ih =>
    intro hn
    rw [List.range_succ, List.foldl_append, ih (by omega)]
    have := hlive _ (slot_mem_table s n (by omega) h)
    simp [this]

theorem active_count_eq {s : Shell} (hs : Inv s) : active_count s = s.jobs_count :=
  active_count_aux s (Inv_le_len hs) hs.live s.jobs_count (Nat.le_refl _)

theorem take_succ_set (a : List job_t) (n : Nat) (x : job_t) (h : n < a.length) :
    (a.set n x).take (n + 1) = a.take n ++ [x] := by
  apply List.ext_getElem?
  intro m
  simp only [List.getElem?_take, List.getElem?_set, List.getElem?_append, List.length_take]
  have hmin : min n a.length = n := by omega
  rw [hmin]
  by_cases c1 : m < n
  · have c2 : m < n + 1 := by omega
    have c3 : ¬ n = m := by omega
    simp [c1, c2, c3]
  · by_cases c2 : m = n
    · subst c2
      simp [h]
    · have c3 : ¬ m < n + 1 := by omega
      have c4 : ¬ m - n = 0 := by omega
      simp [c1, c3]
      omega

theorem table_record_job (pid : Int) (name : List Char) (s : Shell)
    (h : s.jobs_count < s.jobs_32.length) :
    table (record_job pid name s) = table s ++ [new_job pid s.next_job_id name] := by
  simp only [table, record_job]
  exact take_succ_set _ _ _ h

theorem Inv_record_job {s : Shell} (hs : Inv s) (pid : Int) (name : List Char)
    (h : s.jobs_count < 32) : Inv (record_job pid name s) := by
  have hlen := hs.len
  have ht := table_record_job pid name s (by omega)
  have hnp := hs.next_pos
  refine ⟨?_, ?_, ?_, ?_, ?_, ?_, ?_, ?_, ?_, ?_, ?_, ?_⟩
  · simp [record_job, hlen]
  · simp only [record_job]
    omega
  · intro j hj
    rw [ht] at hj
    rcases List.mem_append.mp hj with h1 | h1
    · exact hs.live j h1
    · rw [List.mem_singleton.mp h1]
      rfl
  · rw [ht]
    refine List.pairwise_append.mpr ⟨hs.ids_sorted, List.pairwise_singleton _ _, ?_⟩
    intro a ha b hb
    rw [List.mem_singleton.mp hb]
    exact hs.ids_lt a ha
  · intro j hj
    rw [ht] at hj
    rcases List.mem_append.mp hj with h1 | h1
    · exact hs.ids_pos j h1
    · rw [List.mem_singleton.mp h1]
      exact hnp
  · intro j hj
    rw [ht] at hj
    have e : (record_job pid name s).next_job_id = s.next_job_id + 1 := rfl
    rw [e]
    rcases List.mem_append.mp hj with h1 | h1
    · have := hs.ids_lt j h1
      omega
    · rw [List.mem_singleton.mp h1]
      show s.next_job_id < s.next_job_id + 1
      omega
  · show (s.id_log ++ [s.next_job_id]).Pairwise (fun a b => a < b)
    refine List.pairwise_append.mpr ⟨hs.log_sorted, List.pairwise_singleton _ _, ?_⟩
    intro a ha b hb
    rw [List.mem_singleton.mp hb]
    exact hs.log_lt a ha
  · intro x hx
    have e : (record_job pid name s).next_job_id = s.next_job_id + 1 := rfl
    have e2 : (record_job pid name s).id_log = s.id_log ++ [s.next_job_id] := rfl
    rw [e]
    rw [e2] at hx
    rcases List.mem_append.mp hx with h1 | h1
    · have := hs.log_lt x h1
      omega
    · rw [List.mem_singleton.mp h1]
      omega
  · have := hs.active
    simp only [record_job]
    push_cast
    omega
  · have e : (record_job pid name s).next_job_id = s.next_job_id + 1 := rfl
    rw [e]
    omega
  · intro j hj
    have e2 : (record_job pid name s).id_log = s.id_log ++ [s.next_job_id] := rfl
    rw [ht] at hj
    rw [e2]
    rcases List.mem_append.mp hj with h1 | h1
    · exact List.mem_append.mpr (Or.inl (hs.logged j h1))
    · rw [List.mem_singleton.mp h1]
      exact List.mem_append.mpr (Or.inr (List.mem_singleton.mpr rfl))
  · have e : (record_job pid name s).next_job_id = s.next_job_id + 1 := rfl
    have e2 : (record_job pid name s).id_log = s.id_log ++ [s.next_job_id] := rfl
    have := hs.counter
    rw [e, e2, List.length_append, List.length_singleton]
    push_cast
    omega

/-! ## The invariant along sessions -/

theorem Inv_wait_loop (idx : Nat) (pid : Int) (sched : List (List (Int × wstatus)))
    {s : Shell} (hs : Inv s) : Inv (wait_loop idx pid sched s).state := by
  induction sched generalizing s with
  | nil =>
    simp only [wait_loop]
    split <;> exact hs
  | cons batch rest ih =>
    simp only [wait_loop]
    split
    · exact hs
    · exact ih (Inv_sigchld_handler hs batch)

theorem Inv_after_wait {o : Outcome} (h : Inv o.state) : Inv (after_wait o).state := by
  cases o with
  | returned s => exact Inv_frame h rfl rfl rfl rfl rfl
  | exited c s => exact h
  | polling s => exact h
  | replaced s => exact h

theorem Inv_fg_resume (job_index : Nat) (the_pid : Int)
    (sched : List (List (Int × wstatus))) {s : Shell} (hs : Inv s)
    (hi : job_index < s.jobs_count) : Inv (fg_resume job_index the_pid sched s).state := by
  unfold fg_resume
  apply Inv_after_wait
  apply Inv_wait_loop
  split
  · exact Inv_frame (Inv_set_suspended (Inv_emit hs _) job_index false hi) rfl rfl rfl rfl rfl
  · exact Inv_frame hs rfl rfl rfl rfl rfl

theorem Inv_fg_command (toks : List (List Char)) (sched : List (List (Int × wstatus)))
    {s : Shell} (hs : Inv s) : Inv (fg_command toks sched s).state := by
  unfold fg_command
  split
  · simp only
    split_ifs with h1 h2 h3 h4 h5
    · exact Inv_emit hs _
    · exact Inv_fg_resume _ _ _ hs h3
    · exact Inv_emit hs _
    · exact Inv_emit hs _
    · exact Inv_fg_resume _ _ _ hs h5
    · exact Inv_emit hs _
  · exact Inv_emit hs _

theorem Inv_bg_command (toks : List (List Char)) {s : Shell} (hs : Inv s) :
    Inv (bg_command toks s) := by
  unfold bg_command
  split
  · simp only
    split_ifs with h1 h2 h3
    · exact Inv_emit hs _
    · exact Inv_emit hs _
    · exact Inv_emit (Inv_set_suspended (Inv_emit hs _) _ false h3) _
    · exact Inv_emit hs _
  · exact Inv_emit hs _

theorem Inv_launch (toks : List (List Char)) (name : List Char) (bg : Bool) (env : Env)
    {s : Shell} (hs : Inv s) : Inv (launch toks name bg env s).state := by
  unfold launch
  rw [active_count_eq hs]
  by_cases h1 : s.jobs_count ≥ 32
  · rw [if_pos h1]
    exact Inv_emit hs _
  · rw [if_neg h1]
    simp only
    by_cases h2 : env.fork_ret < 0
    · rw [if_pos h2]
      exact Inv_emit (Inv_emit hs _) _
    · rw [if_neg h2]
      by_cases h3 : env.fork_ret = 0
      · rw [if_pos h3]
        by_cases h4 : env.exec_fails = true
        · rw [if_pos h4]
          exact Inv_emit (Inv_emit (Inv_emit (Inv_emit (Inv_emit hs _) _) _) _) _
        · rw [if_neg h4]
          exact Inv_emit (Inv_emit (Inv_emit hs _) _) _
      · rw [if_neg h3]
        have hr : Inv (record_job env.fork_ret name (emit (Effect.fork env.fork_ret) s)) :=
          Inv_record_job (Inv_emit hs _) _ _ (by simpa using h1)
        by_cases h5 : bg = true
        · rw [if_pos h5]
          exact Inv_emit hr _
        · rw [if_neg h5]
          apply Inv_after_wait
          apply Inv_wait_loop
          exact Inv_frame hr rfl rfl rfl rfl rfl

theorem Inv_eval (toks : List (List Char)) (bg : Bool) (env : Env) {s : Shell}
    (hs : Inv s) : Inv (eval toks bg env s).state := by
  unfold eval
  split
  · exact hs
  · split_ifs
    · exact Inv_emit hs _
    · exact Inv_emit hs _
    · exact Inv_emit hs _
    · exact same_globals_Inv (jobs_command_same s) hs
    · exact same_globals_Inv (nuke_command_same _ s) hs
    · exact Inv_fg_command _ _ hs
    · exact Inv_bg_command _ hs
    · exact Inv_launch _ _ _ _ hs

theorem Inv_step (e : Event) {s : Shell} (hs : Inv s) : Inv (step e s).state := by
  cases e with
  | command toks bg env => exact Inv_eval toks bg env hs
  | sigchld pending => exact Inv_sigchld_handler hs pending

theorem Inv_run (evs : List Event) {s : Shell} (hs : Inv s) : Inv (run evs s).state := by
  induction evs generalizing s with
  | nil => exact hs
  | cons e es ih =>
    have h := Inv_step e hs
    simp only [run]
    cases hst : step e s with
    | returned s' =>
      rw [hst] at h
      exact ih h
    | exited c s' =>
      rw [hst] at h
      exact h
    | polling s' =>
      rw [hst] at h
      exact h
    | replaced s' =>
      rw [hst] at h
      exact h

theorem Inv_init : Inv init := by
  have ht : table init = [] := rfl
  refine ⟨rfl, by decide, ?_, ?_, ?_, ?_, ?_, ?_, rfl, by decide, ?_, rfl⟩
  · intro j hj
    rw [ht] at hj
    cases hj
  · rw [ht]
    exact List.Pairwise.nil
  · intro j hj
    rw [ht] at hj
    cases hj
  · intro j hj
    rw [ht] at hj
    cases hj
  · exact List.Pairwise.nil
  · intro x hx
    cases hx
  · intro j hj
    rw [ht] at hj
    cases hj

theorem Inv_of_Reachable {s : Shell} (h : Reachable s) : Inv s := by
  obtain ⟨evs, rfl⟩ := h
  exact Inv_run evs Inv_init

/-! ## Claims about the launch of a command -/

theorem active_count_ge_aux (s : Shell) : ∀ n,
    (s.jobs_32.take n).countP (fun j => !j.ended) ≤
      (List.range n).foldl (fun k i => if !(slot s i).ended then k + 1 else k) 0 := by
  intro n
  induction n with
  | zero => simp
  | succ n ih =>
    rw [List.take_succ, List.countP_append, List.range_succ, List.foldl_append]
    cases h : s.jobs_32[n]? with
    | none =>
      simp only [Option.toList, List.countP_nil, List.foldl_cons, List.foldl_nil]
      split <;> omega
    | some x =>
      have hx : slot s n = x := by rw [slot_eq, h]; rfl
      simp only [Option.toList, List.foldl_cons, List.foldl_nil, hx, List.countP_cons,
        List.countP_nil]
      split <;> simp_all

theorem active_count_ge (s : Shell) :
    (table s).countP (fun j => !j.ended) ≤ active_count s :=
  active_count_ge_aux s s.jobs_count

/-- C1: when the job table holds 32 live entries (32 entries in use that are
not marked ended), evaluating a command that is not a built-in, in the
foreground or in the background, returns after writing the one line
"ERROR: too many jobs" to standard error: no `fork` appears in the trace and
the table, the id counter, the foreground target and every other global are
what they were. -/
theorem launch_at_capacity (s : Shell) (name : List Char) (args : List (List Char))
    (bg : Bool) (env : Env) (hname : ¬ builtin name)
    (hfull : (table s).countP (fun j => !j.ended) = 32) :
    eval (name :: args) bg env s =
      Outcome.returned
        { s with trace := s.trace ++ [Effect.eprintf "ERROR: too many jobs\n".toList] } := by
  have hge : active_count s ≥ 32 := by
    have := active_count_ge s
    omega
  unfold builtin at hname
  simp only [not_or] at hname
  obtain ⟨h1, h2, h3, h4, h5⟩ := hname
  simp only [eval, if_neg h1, if_neg h2, if_neg h3, if_neg h4, if_neg h5, launch, if_pos hge]
  rfl

/-- C1, instance: with the 32 running jobs of `ex_full`, the foreground command
`ls -l` only reports the capacity error. -/
theorem launch_at_capacity_witness :
    ¬ builtin "ls".toList ∧ (table ex_full).countP (fun j => !j.ended) = 32 ∧
    eval ["ls".toList, "-l".toList] false (quiet 200) ex_full =
      Outcome.returned
        { ex_full with
          trace := ex_full.trace ++ [Effect.eprintf "ERROR: too many jobs\n".toList] } :=
  ⟨by decide, by decide,
    launch_at_capacity ex_full "ls".toList ["-l".toList] false (quiet 200) (by decide)
      (by decide)⟩

/-- Job ids in the sessions of `run`, where no SIGCHLD is delivered inside the
recording of a job: the ids given to the launched jobs (recorded in order
where `j->job_id` is stored) are strictly increasing, so none is handed out
twice; the id counter is above all of them (it is 1 plus their number:
removals never lower it); every id in the table is one of them; and the ids of
the table entries increase along the table, so no two entries share a job id.
With a delivery inside the recording the table can hold one id twice
(`ex_race_first_session`). -/
theorem job_ids_strictly_increase (evs : List Event) :
    (run evs init).state.id_log.Pairwise (fun a b => a < b) ∧
    (∀ x ∈ (run evs init).state.id_log, x < (run evs init).state.next_job_id) ∧
    (run evs init).state.next_job_id = 1 + ((run evs init).state.id_log.length : Int) ∧
    (∀ j ∈ table (run evs init).state, j.job_id ∈ (run evs init).state.id_log) ∧
    (table (run evs init).state).Pairwise (fun a b => a.job_id < b.job_id) ∧
    ((table (run evs init).state).map fun j => j.job_id).Nodup := by
  have h := Inv_run evs Inv_init
  refine ⟨h.log_sorted, h.log_lt, h.counter, h.logged, h.ids_sorted, ?_⟩
  have h1 : ((table (run evs init).state).map fun j => j.job_id).Pairwise
      (fun a b => a < b) := List.pairwise_map.mpr h.ids_sorted
  exact h1.imp (fun hab => ne_of_lt hab)

theorem eval_external (name : List Char) (args : List (List Char)) (bg : Bool) (env : Env)
    (s : Shell) (hname : ¬ builtin name) :
    eval (name :: args) bg env s = launch (name :: args) name bg env s := by
  unfold builtin at hname
  simp only [not_or] at hname
  obtain ⟨h1, h2, h3, h4, h5⟩ := hname
  simp only [eval, if_neg h1, if_neg h2, if_neg h3, if_neg h4, if_neg h5]

theorem count_lt_of_few (s : Shell) (hlen : s.jobs_32.length = 32)
    (hlive : ∀ j ∈ table s, j.ended = false)
    (hfew : (table s).countP (fun j => !j.ended) < 32) : s.jobs_count < 32 := by
  have h1 : (table s).countP (fun j => !j.ended) = (table s).length := by
    rw [List.countP_eq_length]
    intro j hj
    simp [hlive j hj]
  have h2 : (table s).length = min s.jobs_count 32 := by
    simp [table, hlen]
  omega

theorem active_count_of_live (s : Shell) (hlen : s.jobs_32.length = 32)
    (hlive : ∀ j ∈ table s, j.ended = false)
    (hfew : (table s).countP (fun j => !j.ended) < 32) : active_count s = s.jobs_count :=
  active_count_aux s (by have := count_lt_of_few s hlen hlive hfew; omega) hlive
    s.jobs_count (Nat.le_refl _)

/-- C5, failing input: while the shell polls for its foreground job (pid 20,
`fg_pid = 20`), the handler reaps the report that process 20 exited normally,
or that it was killed by a signal.  The branch for a stopped process clears
`fg_pid` (lines 109-112); the branches for an exited and for a killed process
remove the job and return with `fg_pid` still 20, the pid of a process that
has been reaped and is no longer in the table.  A SIGINT handled at that
moment calls `kill(20, SIGINT)`. -/
theorem reaper_keeps_fg_pid_on_termination :
    run ex_fg_session init = Outcome.polling ex_fg ∧ ex_fg.fg_pid = 20 ∧
    (table ex_fg).map (fun j => j.pid) = [20] ∧
    WIFSTOPPED (wstatus.stopped 19) = true ∧
    (sigchld_handler [(20, wstatus.stopped 19)] ex_fg).fg_pid = 0 ∧
    WIFEXITED (wstatus.exited 0) = true ∧
    (reap_one 20 (wstatus.exited 0) ex_fg).fg_pid = 20 ∧
    (sigchld_handler [(20, wstatus.exited 0)] ex_fg).fg_pid = 20 ∧
    table (sigchld_handler [(20, wstatus.exited 0)] ex_fg) = [] ∧
    WIFSIGNALED (wstatus.signaled 9 false) = true ∧
    (sigchld_handler [(20, wstatus.signaled 9 false)] ex_fg).fg_pid = 20 ∧
    table (sigchld_handler [(20, wstatus.signaled 9 false)] ex_fg) = [] ∧
    emitted (sigchld_handler [(20, wstatus.exited 0)] ex_fg)
      (sigint_handler (sigchld_handler [(20, wstatus.exited 0)] ex_fg)).state =
      [Effect.kill 20 Signal.SIGINT] := by
  decide

theorem after_wait_returned_fg_pid (o : Outcome) (s' : Shell)
    (h : after_wait o = Outcome.returned s') : s'.fg_pid = 0 := by
  cases o with
  | returned s =>
    simp only [after_wait, Outcome.returned.injEq] at h
    rw [← h]
  | exited c s => simp [after_wait] at h
  | polling s => simp [after_wait] at h
  | replaced s => simp [after_wait] at h

/-- What the reaper does to `fg_pid`, for every state: for a report whose pid
is the foreground target and is in the table, the reaper sets `fg_pid` to 0
when the status is stopped, and leaves `fg_pid` as it is when the status is
exited normally or killed by a signal; `fg_pid` is then set to 0 only by the
statement that follows the polling loop of `eval` or `fg_command`, once that
loop has noticed the removal. -/
theorem reaper_clears_fg_pid_on_stop_only (s : Shell) (pid : Int) (status : wstatus)
    (hfg : pid = s.fg_pid) (hpres : ∃ j ∈ table s, j.pid = pid)
    (hlen : s.jobs_count ≤ s.jobs_32.length) :
    (WIFSTOPPED status = true → (reap_one pid status s).fg_pid = 0) ∧
    (WIFEXITED status = true ∨ WIFSIGNALED status = true →
      (reap_one pid status s).fg_pid = s.fg_pid) ∧
    (∀ idx sched s0 s', after_wait (wait_loop idx pid sched s0) = Outcome.returned s' →
      s'.fg_pid = 0) := by
  obtain ⟨j0, hj0, hp0⟩ := hpres
  have hfound : find_index (fun j => j.pid == pid) s < s.jobs_count :=
    find_index_lt_of_mem _ s j0 hlen hj0 (by simp [hp0])
  refine ⟨?_, ?_, fun idx sched s0 s' h => after_wait_returned_fg_pid _ s' h⟩
  · intro hst
    cases status with
    | stopped sig =>
      rw [reap_one_stopped pid sig s hfound]
      simp [hfg]
    | exited code => simp [WIFSTOPPED] at hst
    | signaled sig core => simp [WIFSTOPPED] at hst
    | continued => simp [WIFSTOPPED] at hst
  · intro hst
    cases status with
    | stopped sig => simp [WIFEXITED, WIFSIGNALED] at hst
    | exited code =>
      rw [reap_one_exited pid code s hfound,
        job_eliminate_of_lt _ _ (by simpa [set_ended] using hfound)]
      simp [set_ended]
    | signaled sig core =>
      rw [reap_one_signaled pid sig core s hfound,
        job_eliminate_of_lt _ _ (by simpa [set_ended] using hfound)]
      simp [set_ended]
    | continued => simp [WIFEXITED, WIFSIGNALED] at hst

/-- Instance of `reaper_clears_fg_pid_on_stop_only`: in `ex_fg` a stop of
process 20 clears `fg_pid`. -/
theorem reaper_clears_fg_pid_on_stop_only_witness :
    (20 : Int) = ex_fg.fg_pid ∧ (∃ j ∈ table ex_fg, j.pid = 20) ∧
    (reap_one 20 (wstatus.stopped 19) ex_fg).fg_pid = 0 :=
  ⟨by decide, by decide,
    (reaper_clears_fg_pid_on_stop_only ex_fg 20 (wstatus.stopped 19) (by decide)
      (by decide) (by decide)).1 rfl⟩


/-! ## The polling loops read a fixed array index -/

/-- C6, failing input: with jobs 1 (pid 10) and 2 (pid 20) running and job 3
(pid 30) stopped, `fg %2` finds pid 20 at index 1.  Job 1 exits during the
wait; `job_eliminate` moves pid 20 to index 0 and the stopped job 3 to index 1,
the loop reads the suspended flag at index 1 and `fg` returns, although the
job with pid 20 is still in the table and Running. -/
theorem fg_returns_while_job_runs :
    run ex_three_session init = Outcome.returned ex_three ∧
    (table ex_three).map (fun j => (j.job_id, j.pid, j.state)) =
      [(1, 10, JobState.Running), (2, 20, JobState.Running), (3, 30, JobState.Stopped)] ∧
    fg_command ["fg".toList, "%2".toList] [[(10, wstatus.exited 0)]] ex_three =
      Outcome.returned
        (fg_command ["fg".toList, "%2".toList] [[(10, wstatus.exited 0)]] ex_three).state ∧
    (table (fg_command ["fg".toList, "%2".toList] [[(10, wstatus.exited 0)]]
        ex_three).state).map (fun j => (j.job_id, j.pid, j.state)) =
      [(2, 20, JobState.Running), (3, 30, JobState.Stopped)] := by
  decide

/-- C7, failing input: `p` (pid 20) is launched in the foreground as the second
job, so the loop of `eval` watches index 1.  The background job exits first and
`job_eliminate` moves `p` to index 0; when `p` is then stopped the reaper marks
index 0, the exit test still reads index 1 and finds pid 20 in the table: the
test is false with `p` Stopped, and the shell keeps polling. -/
theorem launch_wait_misses_stop :
    run ex_stop_session init = Outcome.polling (run ex_stop_session init).state ∧
    (table (run ex_stop_session init).state).map (fun j => (j.job_id, j.pid, j.state)) =
      [(2, 20, JobState.Stopped)] ∧
    wait_exit_test 1 20 (run ex_stop_session init).state = false := by
  decide


/-! ## Decimal text: what printf writes, strtol reads back -/

theorem isdigit_not_space (c : Char) (h : isdigit c = true) :
    isspace c = false ∧ c ≠ '-' ∧ c ≠ '+' ∧ c ≠ '%' := by
  simp only [isdigit, Bool.and_eq_true, decide_eq_true_eq] at h
  refine ⟨?_, ?_, ?_, ?_⟩
  · simp only [isspace, Bool.or_eq_false_iff, decide_eq_false_iff_not, Bool.and_eq_false_iff,
      not_le]
    omega
  · rintro rfl
    have : ('-' : Char).toNat = 45 := by decide
    omega
  · rintro rfl
    have : ('+' : Char).toNat = 43 := by decide
    omega
  · rintro rfl
    have : ('%' : Char).toNat = 37 := by decide
    omega

theorem strtol_digits (ds : List Char) (hne : ds ≠ []) (hd : ∀ c ∈ ds, isdigit c = true)
    (hmax : (digits_value ds : Int) ≤ LONG_MAX) :
    strtol ds = ((digits_value ds : Int), []) := by
  obtain ⟨c, cs, rfl⟩ := List.exists_cons_of_ne_nil hne
  obtain ⟨h1, h2, h3, _⟩ := isdigit_not_space c (hd c (List.mem_cons_self _ _))
  have ht : (c :: cs).dropWhile isspace = c :: cs := by
    simp [List.dropWhile_cons, h1]
  have htw : (c :: cs).takeWhile isdigit = c :: cs :=
    List.takeWhile_eq_self_iff.mpr hd
  have hdw : (c :: cs).dropWhile isdigit = [] :=
    List.dropWhile_eq_nil_iff.mpr hd
  have hneg : ¬ (some c = some '-') := fun h => h2 (Option.some.inj h)
  have hpos : ¬ (some c = some '+') := fun h => h3 (Option.some.inj h)
  have hmin : LONG_MIN ≤ (digits_value (c :: cs) : Int) := by
    have : (0 : Int) ≤ (digits_value (c :: cs) : Int) := Int.ofNat_nonneg _
    unfold LONG_MIN
    omega
  unfold strtol
  simp only [ht, List.head?_cons, hneg, hpos, or_self, if_false, htw, hdw, decide_False]
  simp [min_eq_right hmax, max_eq_right hmin]

theorem to_int_of_is_int (x : Int) (h : is_int x) : to_int x = x := by
  unfold is_int at h
  unfold to_int
  omega

theorem fmt_d_length (x : Int) (h : is_int x) : (fmt_d x).length ≤ 11 := by
  unfold is_int at h
  have hl : (Nat.toDigits 10 x.natAbs).length ≤ 10 :=
    Nat.toDigitsCore_length 10 (by decide) (x.natAbs + 1) x.natAbs 10 (by omega) (by decide)
  unfold fmt_d
  split
  · simp only [List.length_cons]
    omega
  · omega


/-! ## Loops over the table that only emit -/

theorem foldl_emit (c : job_t → Bool) (E : job_t → Effect) (l : List Nat) (s : Shell) :
    l.foldl (fun s i => if c (slot s i) then emit (E (slot s i)) s else s) s =
      { s with trace := s.trace ++ ((l.map (slot s)).filter c).map E } := by
  induction l generalizing s with
  | nil => simp
  | cons x xs ih =>
    simp only [List.foldl_cons, List.map_cons]
    by_cases h : c (slot s x) = true
    · rw [if_pos h, ih, List.filter_cons_of_pos h]
      have hs : slot (emit (E (slot s x)) s) = slot s := rfl
      rw [hs]
      simp [emit]
    · rw [if_neg h, ih, List.filter_cons_of_neg h]

theorem range_map_slot (s : Shell) (h : s.jobs_count ≤ s.jobs_32.length) :
    (List.range s.jobs_count).map (slot s) = table s := by
  apply List.ext_getElem?
  intro m
  by_cases c : m < s.jobs_count
  · rw [table_getElem?_slot s m c h, List.getElem?_map, List.getElem?_range c]
    rfl
  · rw [table_getElem?, if_neg c, List.getElem?_eq_none]
    simp
    omega

/-- The listing printed by `jobs_command`: one line per entry of the table that
has not ended, in table order. -/
theorem jobs_command_eq (s : Shell) (h : s.jobs_count ≤ s.jobs_32.length) :
    jobs_command s =
      { s with trace := s.trace ++ ((table s).filter fun j => !j.ended).map fun j =>
          Effect.printf (fmt_job_line j.job_id j.pid
            (if j.suspended then "suspended".toList else "running".toList) j.command) } := by
  have := foldl_emit (fun j => !j.ended)
    (fun j => Effect.printf (fmt_job_line j.job_id j.pid
      (if j.suspended then "suspended".toList else "running".toList) j.command))
    (List.range s.jobs_count) s
  rw [range_map_slot s h] at this
  exact this

theorem emitted_append (s s' : Shell) (es : List Effect) (h : s'.trace = s.trace ++ es) :
    emitted s s' = es := by
  simp [emitted, h]

theorem stdout_text_append (a b : List Effect) :
    stdout_text (a ++ b) = stdout_text a ++ stdout_text b := by
  induction a with
  | nil => rfl
  | cons x xs ih =>
    simp only [stdout_text, List.cons_append, List.foldr_cons] at ih ⊢
    rw [ih, List.append_assoc]

theorem header_fits (id pid : Int) (h1 : is_int id) (h2 : is_int pid) :
    snprintf 128 ("[".toList ++ fmt_d id ++ "] (".toList ++ fmt_d pid ++ ")  ".toList) =
      "[".toList ++ fmt_d id ++ "] (".toList ++ fmt_d pid ++ ")  ".toList := by
  have l1 := fmt_d_length id h1
  have l2 := fmt_d_length pid h2
  unfold snprintf
  apply List.take_of_length_le
  simp only [List.length_append]
  have e1 : "[".toList.length = 1 := by decide
  have e2 : "] (".toList.length = 3 := by decide
  have e3 : ")  ".toList.length = 3 := by decide
  omega

/-- What the reaper writes for one report whose pid is found in the table: the
writes, put end to end, are the status line of the entry with the word of the
status. -/
theorem reap_one_output (pid : Int) (status : wstatus) (s : Shell)
    (h : find_index (fun j => j.pid == pid) s < s.jobs_count)
    (h1 : is_int (slot s (find_index (fun j => j.pid == pid) s)).job_id)
    (h2 : is_int (slot s (find_index (fun j => j.pid == pid) s)).pid) :
    stdout_text (emitted s (reap_one pid status s)) =
      status_line (slot s (find_index (fun j => j.pid == pid) s)).job_id
        (slot s (find_index (fun j => j.pid == pid) s)).pid (status_word status)
        (slot s (find_index (fun j => j.pid == pid) s)).command := by
  have hh := header_fits _ _ h1 h2
  cases status with
  | exited code =>
    rw [reap_one_exited pid code s h, job_eliminate_of_lt _ _ (by simpa [set_ended] using h)]
    rw [emitted_append _ _ _ (by simp only [set_ended]; rfl), hh]
    simp [stdout_text, Effect.stdout, status_line, status_word]
  | signaled sig core =>
    rw [reap_one_signaled pid sig core s h,
      job_eliminate_of_lt _ _ (by simpa [set_ended] using h)]
    rw [emitted_append _ _ _ (by simp only [set_ended]; rfl), hh]
    cases core <;> simp [stdout_text, Effect.stdout, status_line, status_word]
  | stopped sig =>
    rw [reap_one_stopped pid sig s h]
    rw [emitted_append _ _ _ rfl, hh]
    simp [stdout_text, Effect.stdout, status_line, status_word]
  | continued =>
    rw [reap_one_continued pid s h]
    rw [emitted_append _ _ _ rfl, hh]
    simp [stdout_text, Effect.stdout, status_line, status_word]


theorem find_index_eq_of_first (p : job_t → Bool) (s : Shell) (i : Nat)
    (hi : i < s.jobs_count) (hp : p (slot s i) = true)
    (hfirst : ∀ m, m < i → p (slot s m) = false) : find_index p s = i := by
  have h1 := find_index_lt_of_slot p s i hp
  by_contra hne
  have hlt : find_index p s < i := by omega
  have h2 := find_index_sat p s (by omega)
  rw [hfirst _ hlt] at h2
  exact Bool.noConfusion h2

theorem index_lt_of_table_getElem? (s : Shell) (i : Nat) (J : job_t)
    (h : (table s)[i]? = some J) : i < s.jobs_count := by
  rw [table_getElem?] at h
  by_contra hc
  rw [if_neg hc] at h
  exact Option.noConfusion h

theorem slot_of_table_getElem? (s : Shell) (i : Nat) (J : job_t)
    (h : (table s)[i]? = some J) : slot s i = J := by
  have hi := index_lt_of_table_getElem? s i J h
  rw [table_getElem?, if_pos hi] at h
  rw [slot_eq, h]
  rfl

theorem find_index_pid_of_first (s : Shell) (i : Nat) (J : job_t) (pid : Int)
    (hJ : (table s)[i]? = some J) (hpid : J.pid = pid)
    (hfirst : ∀ m e, m < i → (table s)[m]? = some e → e.pid ≠ pid)
    (hlen : s.jobs_count ≤ s.jobs_32.length) :
    find_index (fun j => j.pid == pid) s = i := by
  have hi := index_lt_of_table_getElem? s i J hJ
  apply find_index_eq_of_first _ s i hi
  · rw [slot_of_table_getElem? s i J hJ]
    simp [hpid]
  · intro m hm
    have := hfirst m (slot s m) hm (table_getElem?_slot s m (by omega) hlen)
    simpa using this

theorem slot_set_suspended (s : Shell) (i : Nat) (v : Bool) :
    slot (set_suspended i v s) i = { slot s i with suspended := v } ∨
      slot (set_suspended i v s) i = slot s i := by
  by_cases h : i < s.jobs_32.length
  · left
    simp [slot_eq, set_suspended, h]
  · right
    simp only [slot_eq, set_suspended]
    rw [List.set_eq_of_length_le (by omega)]

theorem slot_set_suspended_fields (s : Shell) (i : Nat) (v : Bool) :
    (slot (set_suspended i v s) i).job_id = (slot s i).job_id ∧
    (slot (set_suspended i v s) i).pid = (slot s i).pid ∧
    (slot (set_suspended i v s) i).command = (slot s i).command := by
  rcases slot_set_suspended s i v with h | h <;> rw [h] <;> exact ⟨rfl, rfl, rfl⟩

/-- The two ways `bg_command` ends: one error message and nothing else, or, for
a suspended element found at `jidx`, one SIGCONT, the flag cleared and one
"running" line. -/
theorem bg_command_cases (toks : List (List Char)) (s : Shell) :
    (∃ m, bg_command toks s = emit (Effect.eprintf m) s) ∨
    (∃ jidx, jidx < s.jobs_count ∧ (slot s jidx).suspended = true ∧
      (slot s jidx).ended = false ∧
      bg_command toks s =
        { set_suspended jidx false s with
          trace := s.trace ++ [Effect.kill (slot s jidx).pid Signal.SIGCONT,
            Effect.printf (fmt_job_line (slot s jidx).job_id (slot s jidx).pid
              "running".toList (slot s jidx).command)] }) := by
  unfold bg_command
  split
  · simp only
    split_ifs with h1 h2 h3
    · exact Or.inl ⟨_, rfl⟩
    · exact Or.inl ⟨_, rfl⟩
    · right
      have hsat := find_index_sat _ s h3
      simp only [Bool.and_eq_true, Bool.not_eq_true', beq_iff_eq] at hsat
      refine ⟨_, h3, hsat.1.2, hsat.2, ?_⟩
      generalize find_index (fun e => e.job_id == to_int (strtol _).1 &&
        e.suspended && !e.ended) s = k
      obtain ⟨f1, _, f3⟩ := slot_set_suspended_fields
        (emit (Effect.kill (slot s k).pid Signal.SIGCONT) s) k false
      rw [f1, f3]
      simp only [emit_slot]
      simp [emit, set_suspended]
      rfl
    · exact Or.inl ⟨_, rfl⟩
  · exact Or.inl ⟨_, rfl⟩


theorem launch_bg_emitted (s : Shell) (name : List Char) (toks : List (List Char)) (env : Env)
    (hlen : s.jobs_32.length = 32) (hcap : s.jobs_count ≤ 32)
    (hlive : ∀ j ∈ table s, j.ended = false) (msg : List Char)
    (hmsg : Effect.printf msg ∈ emitted s (launch toks name true env s).state) :
    msg = status_line s.next_job_id env.fork_ret "running".toList (name.take 255) := by
  have hact : active_count s = s.jobs_count :=
    active_count_aux s (by omega) hlive s.jobs_count (Nat.le_refl _)
  unfold launch at hmsg
  by_cases h1 : active_count s ≥ 32
  · rw [if_pos h1, emitted_append _ _ _ rfl] at hmsg
    simp at hmsg
  · rw [if_neg h1] at hmsg
    simp only at hmsg
    by_cases h2 : env.fork_ret < 0
    · rw [if_pos h2] at hmsg
      simp [emitted, Outcome.state, emit] at hmsg
    · rw [if_neg h2] at hmsg
      by_cases h3 : env.fork_ret = 0
      · rw [if_pos h3] at hmsg
        by_cases h4 : env.exec_fails = true
        · rw [if_pos h4] at hmsg
          simp [emitted, Outcome.state, emit] at hmsg
        · rw [if_neg h4] at hmsg
          simp [emitted, Outcome.state, emit] at hmsg
      · rw [if_neg h3] at hmsg
        simp only [if_true] at hmsg
        have hslot : slot (record_job env.fork_ret name (emit (Effect.fork env.fork_ret) s))
            s.jobs_count = new_job env.fork_ret s.next_job_id name := by
          have : s.jobs_count < 32 := by omega
          simp [slot_eq, record_job, hlen, this]
        rw [emit_jobs_count, hslot] at hmsg
        simp [emitted, Outcome.state, emit, record_job] at hmsg
        rw [hmsg]
        rfl

/-- C10: in a state whose table fits the array and holds no entry marked ended,
with ids and pids that are C ints, every status line is
`"[I] (P)  W  L\n"` (`status_line`) for the id, pid and label of its job:
the writes of the reaper for one report, put end to end, with `W` the word of
the status (finished, killed, killed (core dumped), suspended, continued); each
`printf` of the jobs listing, with `W` = suspended for a Stopped job and
running otherwise; the `printf` of `bg` and the `printf` of a background
launch, with `W` = running. -/
theorem status_lines_exact (s : Shell) (hlen : s.jobs_32.length = 32)
    (hcap : s.jobs_count ≤ 32) (hlive : ∀ j ∈ table s, j.ended = false)
    (hint : ∀ j ∈ table s, is_int j.job_id ∧ is_int j.pid) :
    (∀ (pid : Int) (status : wstatus) (i : Nat) (J : job_t),
      (table s)[i]? = some J → J.pid = pid →
      (∀ e ∈ (table s).take i, e.pid ≠ pid) →
      stdout_text (emitted s (reap_one pid status s)) =
        status_line J.job_id J.pid (status_word status) J.command) ∧
    (jobs_listing s = (table s).map fun j =>
      Effect.printf (status_line j.job_id j.pid (listing_word j) j.command)) ∧
    (∀ toks msg, Effect.printf msg ∈ emitted s (bg_command toks s) →
      ∃ j ∈ table s, msg = status_line j.job_id j.pid "running".toList j.command) ∧
    (∀ name args env msg, ¬ builtin name →
      Effect.printf msg ∈ emitted s (eval (name :: args) true env s).state →
      msg = status_line s.next_job_id env.fork_ret "running".toList (name.take 255)) := by
  have hle : s.jobs_count ≤ s.jobs_32.length := by omega
  refine ⟨?_, ?_, ?_, ?_⟩
  · intro pid status i J hJ hpid hfirst
    have hi := index_lt_of_table_getElem? s i J hJ
    have hfi := find_index_pid_of_first s i J pid hJ hpid
      (fun m e hm hme => hfirst e (List.mem_iff_getElem?.mpr
        ⟨m, by rw [List.getElem?_take, if_pos hm]; exact hme⟩)) hle
    have hsl := slot_of_table_getElem? s i J hJ
    have hJm : J ∈ table s := List.mem_iff_getElem?.mpr ⟨i, hJ⟩
    have := reap_one_output pid status s (by rw [hfi]; exact hi)
      (by rw [hfi, hsl]; exact (hint J hJm).1) (by rw [hfi, hsl]; exact (hint J hJm).2)
    rw [hfi, hsl] at this
    exact this
  · unfold jobs_listing
    rw [jobs_command_eq s hle, emitted_append _ _ _ rfl]
    have hf : ((table s).filter fun j => !j.ended) = table s := by
      rw [List.filter_eq_self]
      intro j hj
      simp [hlive j hj]
    rw [hf]
    apply List.map_congr_left
    intro j hj
    have he := hlive j hj
    cases hsu : j.suspended <;>
      simp [listing_word, job_t.state, he, hsu, status_line, fmt_job_line]
  · intro toks msg hmsg
    rcases bg_command_cases toks s with ⟨m, hm⟩ | ⟨jidx, hj1, _, _, hj4⟩
    · rw [hm, emitted_append _ _ _ rfl] at hmsg
      simp at hmsg
    · rw [hj4, emitted_append _ _ _ rfl] at hmsg
      simp only [List.mem_cons, List.not_mem_nil, or_false] at hmsg
      rcases hmsg with h | h
      · cases h
      · cases h
        exact ⟨slot s jidx, slot_mem_table s jidx hj1 hle, rfl⟩
  · intro name args env msg hname hmsg
    rw [eval_external name args true env s hname] at hmsg
    exact launch_bg_emitted s name _ env hlen hcap hlive msg hmsg

/-- C10, instance: the jobs listing of `ex_three` (jobs 1 and 2 running, job 3
stopped) and the text the reaper writes when job 3 is continued. -/
theorem status_lines_exact_witness :
    stdout_text (emitted ex_three (reap_one 30 wstatus.continued ex_three)) =
      "[3] (30)  continued  c\n".toList ∧
    jobs_listing ex_three =
      [Effect.printf "[1] (10)  running  a\n".toList,
       Effect.printf "[2] (20)  running  p\n".toList,
       Effect.printf "[3] (30)  suspended  c\n".toList] :=
  have h := status_lines_exact ex_three (by decide) (by decide) (by decide) (by decide)
  ⟨(h.1 30 wstatus.continued 2
      { pid := 30, job_id := 3, command := "c".toList, ended := false, suspended := true }
      (by decide) (by decide) (by decide)).trans (by decide),
    h.2.1.trans (by decide)⟩


/-! ## Selecting a job by its id or its pid -/

theorem reap_one_emitted (pid : Int) (status : wstatus) (s : Shell)
    (h : find_index (fun j => j.pid == pid) s < s.jobs_count) :
    emitted s (reap_one pid status s) =
      (reaper_fragments (slot s (find_index (fun j => j.pid == pid) s)) status).map
        (Effect.write STDOUT_FILENO) := by
  cases status with
  | exited code =>
    rw [reap_one_exited pid code s h, job_eliminate_of_lt _ _ (by simpa [set_ended] using h)]
    rw [emitted_append _ _ _ (by simp only [set_ended]; rfl)]
    rfl
  | signaled sig core =>
    rw [reap_one_signaled pid sig core s h,
      job_eliminate_of_lt _ _ (by simpa [set_ended] using h)]
    rw [emitted_append _ _ _ (by simp only [set_ended]; rfl)]
    cases core <;> rfl
  | stopped sig =>
    rw [reap_one_stopped pid sig s h, emitted_append _ _ _ rfl]
    rfl
  | continued =>
    rw [reap_one_continued pid s h, emitted_append _ _ _ rfl]
    rfl

/-- C11, counterexample: in `ex_two` the report that process 10 exited makes
the reaper perform four writes to standard output, "[1] (10)  ",
"finished  ", "sleep" and "\n"; none of them is the whole line. -/
theorem reaper_writes_four_fragments :
    (table ex_two).map (fun j => j.pid) = [10, 20] ∧
    emitted ex_two (reap_one 10 (wstatus.exited 0) ex_two) =
      [Effect.write 1 "[1] (10)  ".toList, Effect.write 1 "finished  ".toList,
       Effect.write 1 "sleep".toList, Effect.write 1 "\n".toList] ∧
    (writes STDOUT_FILENO (emitted ex_two (reap_one 10 (wstatus.exited 0) ex_two))).length = 4 ∧
    "[1] (10)  finished  sleep\n".toList ∉
      writes STDOUT_FILENO (emitted ex_two (reap_one 10 (wstatus.exited 0) ex_two)) := by
  decide

/-- C11 as amended: for a report whose pid is in the table (the array being in
order), the reaper's effects are writes to standard output and nothing else,
one `write` per call of `sig_printf`: four of them, five for a fatal signal
and six for a fatal signal with core dump (header, word, separator, label,
newline).  Put end to end they are the status line of the entry, when its id
and pid are C ints. -/
theorem reaper_writes_line_in_fragments (s : Shell) (pid : Int) (status : wstatus)
    (hlen : s.jobs_count ≤ s.jobs_32.length) (hpres : ∃ j ∈ table s, j.pid = pid) :
    ∃ J ∈ table s, J.pid = pid ∧
      emitted s (reap_one pid status s) =
        (reaper_fragments J status).map (Effect.write STDOUT_FILENO) ∧
      writes STDOUT_FILENO (emitted s (reap_one pid status s)) = reaper_fragments J status ∧
      (reaper_fragments J status).length =
        (match status with
          | .signaled _ true => 6
          | .signaled _ false => 5
          | _ => 4) ∧
      (is_int J.job_id → is_int J.pid →
        stdout_text (emitted s (reap_one pid status s)) =
          status_line J.job_id J.pid (status_word status) J.command) := by
  obtain ⟨j0, hj0, hp0⟩ := hpres
  have hfound : find_index (fun j => j.pid == pid) s < s.jobs_count :=
    find_index_lt_of_mem _ s j0 hlen hj0 (by simp [hp0])
  have hpid : (slot s (find_index (fun j => j.pid == pid) s)).pid = pid := by
    simpa using find_index_sat _ s hfound
  have hem := reap_one_emitted pid status s hfound
  refine ⟨slot s _, slot_mem_table s _ hfound hlen, hpid, hem, ?_, ?_, ?_⟩
  · rw [hem]
    simp only [writes, List.filterMap_map]
    have : ((fun e : Effect =>
        match e with
        | .write f msg => if f = STDOUT_FILENO then some msg else none
        | _ => none) ∘ Effect.write STDOUT_FILENO) = some := by
      funext m
      simp
    rw [this, List.filterMap_some]
  · cases status with
    | exited code => rfl
    | signaled sig core => cases core <;> rfl
    | stopped sig => rfl
    | continued => rfl
  · intro h1 h2
    exact reap_one_output pid status s hfound h1 h2

/-- C11 as amended, instance: the five writes for the kill of process 10 in
`ex_two`. -/
theorem reaper_writes_line_in_fragments_witness :
    ∃ J ∈ table ex_two, J.pid = 10 ∧
      writes STDOUT_FILENO (emitted ex_two (reap_one 10 (wstatus.signaled 9 false) ex_two)) =
        reaper_fragments J (wstatus.signaled 9 false) ∧
      (reaper_fragments J (wstatus.signaled 9 false)).length = 5 :=
  (reaper_writes_line_in_fragments ex_two 10 (wstatus.signaled 9 false) (by decide)
    (by decide)).imp fun _ h => ⟨h.1, h.2.1, h.2.2.2.1, h.2.2.2.2.1⟩


/-! ## Frame of nuke, unknown pids, job_eliminate, the table bound -/

theorem nuke_one_kind (tok : List Char) (s : Shell) :
    ∃ e, nuke_one tok s = emit e s ∧ kill_or_error e := by
  unfold nuke_one
  simp only
  split_ifs
  · exact ⟨_, rfl, Or.inr ⟨_, rfl⟩⟩
  · exact ⟨_, rfl, Or.inl ⟨_, rfl⟩⟩
  · exact ⟨_, rfl, Or.inr ⟨_, rfl⟩⟩
  · exact ⟨_, rfl, Or.inr ⟨_, rfl⟩⟩
  · exact ⟨_, rfl, Or.inl ⟨_, rfl⟩⟩
  · exact ⟨_, rfl, Or.inr ⟨_, rfl⟩⟩

theorem nuke_fold_kind (args : List (List Char)) (s : Shell) :
    ∃ es, args.foldl (fun s tok => nuke_one tok s) s = { s with trace := s.trace ++ es } ∧
      es.length = args.length ∧ ∀ e ∈ es, kill_or_error e := by
  induction args generalizing s with
  | nil => exact ⟨[], by simp, rfl, fun e he => by cases he⟩
  | cons t ts ih =>
    obtain ⟨e, he, hk⟩ := nuke_one_kind t s
    obtain ⟨es, h1, h2, h3⟩ := ih (nuke_one t s)
    refine ⟨e :: es, ?_, by simp [h2], ?_⟩
    · simp only [List.foldl_cons]
      rw [h1, he]
      simp [emit]
    · intro x hx
      rcases List.mem_cons.mp hx with h | h
      · rw [h]
        exact hk
      · exact h3 x h

theorem foldl_emit_kind (c : job_t → Bool) (E : job_t → Effect) (l : List Nat) (s : Shell) :
    ∃ es, l.foldl (fun s i => if c (slot s i) then emit (E (slot s i)) s else s) s =
        { s with trace := s.trace ++ es } ∧ ∀ e ∈ es, ∃ j, e = E j := by
  refine ⟨_, foldl_emit c E l s, ?_⟩
  intro e he
  obtain ⟨j, _, hj⟩ := List.mem_map.mp he
  exact ⟨j, hj.symm⟩

/-- C12: for every state and every argument list (empty, selectors that match,
selectors that do not, malformed ones), `nuke_command` returns the state it
was given with effects added to the trace, each of them a `kill` with SIGKILL
or a message on standard error: the array, `jobs_count` (so the table, its
order, the states of its entries), `next_job_id`, `active_jobs` and `fg_pid`
are unchanged. -/
theorem nuke_changes_no_global (s : Shell) (toks : List (List Char)) :
    (nuke_command toks s).jobs_32 = s.jobs_32 ∧
    (nuke_command toks s).jobs_count = s.jobs_count ∧
    table (nuke_command toks s) = table s ∧
    (nuke_command toks s).next_job_id = s.next_job_id ∧
    (nuke_command toks s).active_jobs = s.active_jobs ∧
    (nuke_command toks s).fg_pid = s.fg_pid ∧
    (nuke_command toks s).id_log = s.id_log ∧
    (nuke_command toks s).trace = s.trace ++ emitted s (nuke_command toks s) ∧
    ∀ e ∈ emitted s (nuke_command toks s), kill_or_error e := by
  have hex : ∃ es, nuke_command toks s = { s with trace := s.trace ++ es } ∧
      ∀ e ∈ es, kill_or_error e := by
    cases toks with
    | nil =>
      obtain ⟨es, h1, h2⟩ := foldl_emit_kind (fun j => !j.ended)
        (fun j => Effect.kill j.pid Signal.SIGKILL) (List.range s.jobs_count) s
      refine ⟨es, h1, ?_⟩
      intro e he
      obtain ⟨j, hj⟩ := h2 e he
      exact Or.inl ⟨j.pid, hj⟩
    | cons t ts =>
      obtain ⟨es, h1, _, h3⟩ := nuke_fold_kind (t :: ts) s
      exact ⟨es, h1, h3⟩
  obtain ⟨es, h1, h2⟩ := hex
  have hem : emitted s (nuke_command toks s) = es := by
    rw [h1]
    exact emitted_append _ _ _ rfl
  rw [hem, h1]
  exact ⟨rfl, rfl, rfl, rfl, rfl, rfl, rfl, rfl, h2⟩

/-- C14: when no entry of the table (the array being in order) has the pid of
the report, the reaper's handling of the report returns the state unchanged:
nothing is written to standard output or standard error, and the table, the
id counter and the foreground target are what they were.  The same holds for
the whole handler run on that single report. -/
theorem reaper_ignores_unknown_pid (s : Shell) (pid : Int) (status : wstatus)
    (hlen : s.jobs_count ≤ s.jobs_32.length) (habs : ∀ j ∈ table s, j.pid ≠ pid) :
    reap_one pid status s = s ∧ sigchld_handler [(pid, status)] s = s ∧
    emitted s (reap_one pid status s) = [] := by
  have hnf : ¬ find_index (fun j => j.pid == pid) s < s.jobs_count :=
    find_index_ge_of_forall _ s hlen (by intro j hj; simpa using habs j hj)
  have h1 := reap_one_absent pid status s hnf
  refine ⟨h1, ?_, ?_⟩
  · simp only [sigchld_handler, h1]
    split <;> rfl
  · rw [h1]
    simp [emitted]

/-- C14, instance: in `ex_two` (pids 10 and 20) a report for pid 99 changes
nothing. -/
theorem reaper_ignores_unknown_pid_witness :
    (∀ j ∈ table ex_two, j.pid ≠ 99) ∧
    sigchld_handler [(99, wstatus.exited 0)] ex_two = ex_two :=
  ⟨by decide,
    (reaper_ignores_unknown_pid ex_two 99 (wstatus.exited 0) (by decide) (by decide)).2.1⟩

/-- C15: for a table of `n = jobs_count` entries inside the array and an index
`jobid`: when `0 ≤ jobid < n`, `job_eliminate` leaves the table with the entry
at `jobid` erased (the others unchanged, in the same order), `jobs_count` is
`n - 1` and the table has `n - 1` entries; when `jobid` is out of range, the
state is unchanged. -/
theorem job_eliminate_erases_entry (s : Shell) (jobid : Int)
    (hlen : s.jobs_count ≤ s.jobs_32.length) :
    (0 ≤ jobid ∧ jobid < (s.jobs_count : Int) →
      table (job_eliminate jobid s) = (table s).eraseIdx jobid.toNat ∧
      (job_eliminate jobid s).jobs_count = s.jobs_count - 1 ∧
      (table (job_eliminate jobid s)).length = s.jobs_count - 1 ∧
      (job_eliminate jobid s).jobs_32.length = s.jobs_32.length ∧
      (job_eliminate jobid s).next_job_id = s.next_job_id ∧
      (job_eliminate jobid s).fg_pid = s.fg_pid) ∧
    (jobid < 0 ∨ (s.jobs_count : Int) ≤ jobid → job_eliminate jobid s = s) := by
  constructor
  · rintro ⟨h0, h1⟩
    obtain ⟨i, rfl⟩ := Int.eq_ofNat_of_zero_le h0
    have hi : i < s.jobs_count := by omega
    have ht := table_job_eliminate s i hi hlen
    have hf := job_eliminate_of_lt s i hi
    refine ⟨by simpa using ht, ?_, ?_, ?_, ?_, ?_⟩
    · rw [hf]
    · rw [ht, List.length_eraseIdx, table_length s hlen]
      simp [table_length s hlen, hi]
    · rw [hf]
      simp [shift_up_length]
    · rw [hf]
    · rw [hf]
  · intro h
    have hg : jobid < 0 ∨ jobid ≥ (s.jobs_count : Int) := by omega
    simp only [job_eliminate, if_pos hg]

/-- C15, instance: erasing index 0 of the table of `ex_two` leaves the job
`cat` alone. -/
theorem job_eliminate_erases_entry_witness :
    table (job_eliminate 0 ex_two) = [new_job 20 2 "cat".toList] ∧
    (job_eliminate 0 ex_two).jobs_count = 1 ∧ job_eliminate 5 ex_two = ex_two :=
  have h := job_eliminate_erases_entry ex_two 0 (by decide)
  have h5 := job_eliminate_erases_entry ex_two 5 (by decide)
  ⟨(h.1 (by decide)).1.trans (by decide), (h.1 (by decide)).2.1.trans (by decide),
    h5.2 (by decide)⟩

/-- The table in the states of the sessions of `run`, where no SIGCHLD is
delivered inside the recording of a job: at most 32 elements of the 32-element
array are in use, none of them is marked ended, the count of live jobs
computed by the capacity check of `eval` is the number of entries, and
whenever that check lets a launch through the element it writes, at index
`jobs_count`, is inside the array.  With a delivery inside the recording an
element in use can be marked ended, the count of live jobs can be below the
number of entries, and a launch that passes the check can address an element
outside the array (`ex_race_last_session`, `ex_race_fill_session`). -/
theorem table_bounded_and_live (s : Shell) (hs : Reachable s) :
    s.jobs_32.length = 32 ∧ s.jobs_count ≤ 32 ∧ (table s).length = s.jobs_count ∧
    (∀ j ∈ table s, j.ended = false) ∧
    (∀ j ∈ table s, j.state ≠ JobState.Terminated) ∧
    active_count s = s.jobs_count ∧
    (active_count s < 32 → s.jobs_count < s.jobs_32.length) := by
  have h := Inv_of_Reachable hs
  have hact := active_count_eq h
  refine ⟨h.len, h.cap, table_length s (Inv_le_len h), h.live, ?_, hact, ?_⟩
  · intro j hj
    simp [job_t.state, h.live j hj]
    split <;> simp
  · intro hlt
    rw [h.len]
    omega

/-- Instance of `table_bounded_and_live`: the state after `sleep 100 &`. -/
theorem table_bounded_and_live_witness :
    Reachable ex_bg ∧ ex_bg.jobs_count ≤ 32 ∧ active_count ex_bg = ex_bg.jobs_count :=
  have h := table_bounded_and_live ex_bg ⟨ex_bg_session, rfl⟩
  ⟨⟨ex_bg_session, rfl⟩, h.2.1, h.2.2.2.2.2.1⟩


/-! ## Selectors that match nothing -/

theorem strtol_decimal (ds : List Char) (hne : ds ≠ []) (hd : ∀ c ∈ ds, isdigit c = true)
    (hmax : (digits_value ds : Int) ≤ 2147483647) :
    strtol ds = ((digits_value ds : Int), []) ∧
      to_int (strtol ds).1 = (digits_value ds : Int) ∧ ds.head? ≠ some '%' := by
  have h1 := strtol_digits ds hne hd (by unfold LONG_MAX; omega)
  refine ⟨h1, ?_, ?_⟩
  · rw [h1]
    apply to_int_of_is_int
    unfold is_int
    have : (0 : Int) ≤ (digits_value ds : Int) := Int.ofNat_nonneg _
    omega
  · obtain ⟨c, cs, rfl⟩ := List.exists_cons_of_ne_nil hne
    have := (isdigit_not_space c (hd c (List.mem_cons_self _ _))).2.2.2
    simpa using this

/-- Selectors within the range of `int`: let `ds` be a decimal numeral whose
number `N` is a C int, and let the table be inside the array.  If no live entry has job id `N > 0`, then `nuke`
and `fg` given `%N` write "ERROR: no job N" to standard error and do nothing
else; if no live suspended entry has job id `N > 0`, so does `bg`.  If no live
entry has pid `N`, then `nuke` and `fg` given `N` write "ERROR: no PID N" and
do nothing else; `bg` given a selector without `%` always writes an
"ERROR: no job ..." message and does nothing else.  In each case the result is
the old state with that one message added: no signal, no status line, the
table, the id counter and the foreground target unchanged. -/
theorem unmatched_selector_reports (s : Shell) (ds : List Char)
    (hlen : s.jobs_count ≤ s.jobs_32.length) (hne : ds ≠ [])
    (hd : ∀ c ∈ ds, isdigit c = true) (hmax : (digits_value ds : Int) ≤ 2147483647) :
    (0 < digits_value ds →
      (∀ j ∈ table s, j.job_id = (digits_value ds : Int) → j.ended = true) →
      nuke_command ['%' :: ds] s = emit (Effect.eprintf
        ("ERROR: no job ".toList ++ fmt_d (digits_value ds : Int) ++ "\n".toList)) s ∧
      ∀ word sched, fg_command [word, '%' :: ds] sched s = Outcome.returned (emit
        (Effect.eprintf
          ("ERROR: no job ".toList ++ fmt_d (digits_value ds : Int) ++ "\n".toList)) s)) ∧
    (0 < digits_value ds →
      (∀ j ∈ table s, j.job_id = (digits_value ds : Int) →
        j.suspended = false ∨ j.ended = true) →
      ∀ word rest, bg_command (word :: ('%' :: ds) :: rest) s = emit (Effect.eprintf
        ("ERROR: no job ".toList ++ fmt_d (digits_value ds : Int) ++ "\n".toList)) s) ∧
    ((∀ j ∈ table s, j.pid = (digits_value ds : Int) → j.ended = true) →
      nuke_command [ds] s = emit (Effect.eprintf
        ("ERROR: no PID ".toList ++ fmt_d (digits_value ds : Int) ++ "\n".toList)) s ∧
      ∀ word sched, fg_command [word, ds] sched s = Outcome.returned (emit
        (Effect.eprintf
          ("ERROR: no PID ".toList ++ fmt_d (digits_value ds : Int) ++ "\n".toList)) s)) ∧
    (∀ word rest, bg_command (word :: ds :: rest) s = emit (Effect.eprintf
      ("ERROR: no job ".toList ++ fmt_d (to_int (strtol ds.tail).1) ++ "\n".toList)) s) := by
  obtain ⟨e1, e2, e3⟩ := strtol_decimal ds hne hd hmax
  have e1' : (strtol ds).2 = [] := by rw [e1]
  have e1'' : (strtol ds).1 = (digits_value ds : Int) := by rw [e1]
  refine ⟨?_, ?_, ?_, ?_⟩
  · intro hpos hno
    have h2 : ¬ ((strtol ds).2 ≠ [] ∨ to_int (strtol ds).1 ≤ 0) := by
      rw [e1', e2]
      simp only [ne_eq, not_true_eq_false, false_or, not_le]
      omega
    have hnf : ¬ find_index (fun e => e.job_id == (digits_value ds : Int) && !e.ended) s
        < s.jobs_count := by
      apply find_index_ge_of_forall _ s hlen
      intro j hj
      by_cases c : j.job_id = (digits_value ds : Int)
      · simp [hno j hj c]
      · simp [c]
    constructor
    · show nuke_one ('%' :: ds) s = _
      simp only [nuke_one, List.head?_cons, List.tail_cons, if_true]
      rw [if_neg h2]
      simp only [e2]
      rw [if_neg hnf]
    · intro word sched
      simp only [fg_command, List.head?_cons, List.tail_cons, if_true]
      rw [if_neg h2]
      simp only [e2]
      rw [if_neg hnf]
  · intro hpos hno word rest
    have h1 : ¬ ((('%' :: ds).head?) ≠ some '%') := by simp
    have h2 : ¬ ((strtol ds).2 ≠ [] ∨ to_int (strtol ds).1 ≤ 0) := by
      rw [e1', e2]
      simp only [ne_eq, not_true_eq_false, false_or, not_le]
      omega
    have hnf : ¬ find_index (fun e => e.job_id == (digits_value ds : Int) && e.suspended
        && !e.ended) s < s.jobs_count := by
      apply find_index_ge_of_forall _ s hlen
      intro j hj
      by_cases c : j.job_id = (digits_value ds : Int)
      · rcases hno j hj c with h | h <;> simp [h]
      · simp [c]
    simp only [bg_command, List.tail_cons]
    rw [if_neg h1, if_neg h2]
    simp only [e2]
    rw [if_neg hnf]
  · intro hno
    have h2 : ¬ ((strtol ds).2 ≠ []) := by
      rw [e1']
      simp
    have hnf : ¬ find_index (fun e => e.pid == (digits_value ds : Int) && !e.ended) s
        < s.jobs_count := by
      apply find_index_ge_of_forall _ s hlen
      intro j hj
      by_cases c : j.pid = (digits_value ds : Int)
      · simp [hno j hj c]
      · simp [c]
    constructor
    · show nuke_one ds s = _
      simp only [nuke_one]
      rw [if_neg e3, if_neg h2]
      simp only [e2]
      rw [if_neg hnf]
    · intro word sched
      have e4 : to_int (digits_value ds : Int) = (digits_value ds : Int) := by
        have := e2
        rw [e1''] at this
        exact this
      simp only [fg_command]
      rw [if_neg e3, if_neg h2]
      simp only [e1'', e4]
      rw [if_neg hnf]
  · intro word rest
    simp only [bg_command]
    rw [if_pos e3]

/-- Instance of `unmatched_selector_reports`: in `ex_two` (jobs 1 and 2, pids
10 and 20) the selectors `%7` and `7` match nothing. -/
theorem unmatched_selector_reports_witness :
    nuke_command ["%7".toList] ex_two =
      emit (Effect.eprintf "ERROR: no job 7\n".toList) ex_two ∧
    fg_command ["fg".toList, "7".toList] [] ex_two =
      Outcome.returned (emit (Effect.eprintf "ERROR: no PID 7\n".toList) ex_two) ∧
    bg_command ["bg".toList, "%7".toList] ex_two =
      emit (Effect.eprintf "ERROR: no job 7\n".toList) ex_two :=
  have h := unmatched_selector_reports ex_two "7".toList (by decide) (by decide) (by decide)
    (by decide)
  ⟨((h.1 (by decide) (by decide)).1).trans (by decide),
    ((h.2.2.1 (by decide)).2 "fg".toList []).trans (by decide),
    (h.2.1 (by decide) (by decide) "bg".toList []).trans (by decide)⟩

/-- C13, failing input: in `ex_two` (job 1 with pid 10 and job 2 with pid 20,
both running) no entry has job id 4294967297 or pid 4294967306, and `strtol`
reads both numerals in full.  The `long` is then stored in an `int` (lines 210,
232, 272, 367) or cast to `pid_t` (line 300), which keeps its low 32 bits: 1
and 10.
`nuke %4294967297` and `nuke 4294967306` send SIGKILL to process 10 and write
no error; `fg %4294967297` and `fg 4294967306` take process 10 into the
foreground and wait for it.  In `ex_three`, where job 3 (pid 30) is stopped and
no entry has job id 4294967299, `bg %4294967299` continues process 30 and
prints its status line. -/
theorem selector_beyond_int_selects_job :
    (∀ j ∈ table ex_two, j.job_id ≠ 4294967297 ∧ j.pid ≠ 4294967306) ∧
    strtol "4294967297".toList = (4294967297, []) ∧
    strtol "4294967306".toList = (4294967306, []) ∧
    nuke_command ["%4294967297".toList] ex_two = emit (Effect.kill 10 Signal.SIGKILL) ex_two ∧
    nuke_command ["4294967306".toList] ex_two = emit (Effect.kill 10 Signal.SIGKILL) ex_two ∧
    fg_command ["fg".toList, "%4294967297".toList] [] ex_two =
      Outcome.polling { ex_two with fg_pid := 10 } ∧
    fg_command ["fg".toList, "4294967306".toList] [] ex_two =
      Outcome.polling { ex_two with fg_pid := 10 } ∧
    (∀ j ∈ table ex_three, j.job_id ≠ 4294967299) ∧
    emitted ex_three (bg_command ["bg".toList, "%4294967299".toList] ex_three) =
      [Effect.kill 30 Signal.SIGCONT, Effect.printf "[3] (30)  running  c\n".toList] ∧
    (table (bg_command ["bg".toList, "%4294967299".toList] ex_three)).map
      (fun j => (j.job_id, j.pid, j.state)) =
      [(1, 10, JobState.Running), (2, 20, JobState.Running), (3, 30, JobState.Running)] := by
  decide


/-! ## Forwarding of the interactive signals -/

/-- C16, counterexample: with process 20 in the foreground (`ex_fg`), the
SIGINT handler performs the single call `kill(20, SIGINT)`: the signal goes to
process 20, and no call of the form `kill(-20, SIGINT)` sends it to the
process group 20.  The same holds for SIGQUIT and SIGTSTP. -/
theorem handlers_signal_process_only :
    ex_fg.fg_pid = 20 ∧
    emitted ex_fg (sigint_handler ex_fg).state = [Effect.kill 20 Signal.SIGINT] ∧
    ¬ delivered_to_group (emitted ex_fg (sigint_handler ex_fg).state) 20 Signal.SIGINT ∧
    ¬ delivered_to_group (emitted ex_fg (sigquit_handler ex_fg).state) 20 Signal.SIGQUIT ∧
    ¬ delivered_to_group (emitted ex_fg (sigtstp_handler ex_fg).state) 20 Signal.SIGTSTP := by
  decide

/-- C16 as amended: in every state whose foreground target is a process id
`P > 0`, each of the three handlers returns after the single effect
`kill(P, sig)` with its own signal: the signal is delivered to process `P`,
no `kill` addressed to a process group is performed, and the table,
`fg_pid` and every other global are unchanged. -/
theorem handlers_forward_to_foreground_process (s : Shell) (hfg : 0 < s.fg_pid) :
    sigint_handler s = Outcome.returned (emit (Effect.kill s.fg_pid Signal.SIGINT) s) ∧
    sigquit_handler s = Outcome.returned (emit (Effect.kill s.fg_pid Signal.SIGQUIT) s) ∧
    sigtstp_handler s = Outcome.returned (emit (Effect.kill s.fg_pid Signal.SIGTSTP) s) ∧
    delivered_to_process (emitted s (sigint_handler s).state) s.fg_pid Signal.SIGINT ∧
    delivered_to_process (emitted s (sigquit_handler s).state) s.fg_pid Signal.SIGQUIT ∧
    delivered_to_process (emitted s (sigtstp_handler s).state) s.fg_pid Signal.SIGTSTP ∧
    (∀ sig, ¬ delivered_to_group (emitted s (sigint_handler s).state) s.fg_pid sig ∧
      ¬ delivered_to_group (emitted s (sigquit_handler s).state) s.fg_pid sig ∧
      ¬ delivered_to_group (emitted s (sigtstp_handler s).state) s.fg_pid sig) ∧
    table (sigint_handler s).state = table s ∧ (sigint_handler s).state.fg_pid = s.fg_pid ∧
    table (sigquit_handler s).state = table s ∧ (sigquit_handler s).state.fg_pid = s.fg_pid ∧
    table (sigtstp_handler s).state = table s ∧ (sigtstp_handler s).state.fg_pid = s.fg_pid := by
  have h1 : sigint_handler s =
      Outcome.returned (emit (Effect.kill s.fg_pid Signal.SIGINT) s) := by
    simp only [sigint_handler, gt_iff_lt, hfg, if_true]
  have h2 : sigquit_handler s =
      Outcome.returned (emit (Effect.kill s.fg_pid Signal.SIGQUIT) s) := by
    simp only [sigquit_handler, gt_iff_lt, hfg, if_true]
  have h3 : sigtstp_handler s =
      Outcome.returned (emit (Effect.kill s.fg_pid Signal.SIGTSTP) s) := by
    simp only [sigtstp_handler, gt_iff_lt, hfg, if_true]
  have hem : ∀ e, emitted s (Outcome.returned (emit e s)).state = [e] :=
    fun e => emitted_append _ _ _ rfl
  have hng : ∀ sg sig, ¬ delivered_to_group [Effect.kill s.fg_pid sg] s.fg_pid sig := by
    intro sg sig h
    simp only [delivered_to_group, List.mem_singleton, Effect.kill.injEq] at h
    omega
  refine ⟨h1, h2, h3, ?_, ?_, ?_, ?_, ?_, ?_, ?_, ?_, ?_, ?_⟩
  · rw [h1, hem]
    simp [delivered_to_process]
  · rw [h2, hem]
    simp [delivered_to_process]
  · rw [h3, hem]
    simp [delivered_to_process]
  · intro sig
    rw [h1, h2, h3, hem, hem, hem]
    exact ⟨hng _ sig, hng _ sig, hng _ sig⟩
  · rw [h1]
    rfl
  · rw [h1]
    rfl
  · rw [h2]
    rfl
  · rw [h2]
    rfl
  · rw [h3]
    rfl
  · rw [h3]
    rfl

/-- C16 as amended, instance: the three handlers in `ex_fg`. -/
theorem handlers_forward_to_foreground_process_witness :
    (0 : Int) < ex_fg.fg_pid ∧
    sigtstp_handler ex_fg = Outcome.returned (emit (Effect.kill 20 Signal.SIGTSTP) ex_fg) :=
  ⟨by decide, (handlers_forward_to_foreground_process ex_fg (by decide)).2.2.1⟩


/-! ## Programs that cannot be started -/

/-- C17, counterexample: the program `nosuch` cannot be executed.  In the child
(`fork` returned 0) `execvp` fails, the error is written and the child exits
with status 1; in the shell (`fork` returned 50) the job is registered all the
same: the table gains the entry with pid 50 and the id counter goes from 1
to 2. -/
theorem unexecutable_program_is_registered :
    ¬ builtin "nosuch".toList ∧
    eval ["nosuch".toList] true ex_noexec_child init =
      Outcome.exited 1
        { init with trace := [Effect.fork 0, Effect.setpgid 0 0,
            Effect.execvp "nosuch".toList ["nosuch".toList],
            Effect.eprintf "ERROR: cannot run nosuch\n".toList, Effect.exit 1] } ∧
    table (eval ["nosuch".toList] true ex_noexec_parent init).state =
      [new_job 50 1 "nosuch".toList] ∧
    table init = [] ∧
    (eval ["nosuch".toList] true ex_noexec_parent init).state.next_job_id = 2 ∧
    init.next_job_id = 1 := by
  decide

theorem launch_not_full (s : Shell) (name : List Char) (toks : List (List Char)) (bg : Bool)
    (env : Env) (h1 : ¬ active_count s ≥ 32) :
    launch toks name bg env s =
      if env.fork_ret < 0 then
        Outcome.returned (emit (Effect.eprintf
          ("ERROR: cannot run ".toList ++ name ++ "\n".toList))
          (emit (Effect.fork env.fork_ret) s))
      else if env.fork_ret = 0 then
        if env.exec_fails then
          Outcome.exited 1 (emit (Effect.exit 1) (emit (Effect.eprintf
            ("ERROR: cannot run ".toList ++ name ++ "\n".toList))
            (emit (Effect.execvp name toks) (emit (Effect.setpgid 0 0)
              (emit (Effect.fork env.fork_ret) s)))))
        else
          Outcome.replaced (emit (Effect.execvp name toks) (emit (Effect.setpgid 0 0)
            (emit (Effect.fork env.fork_ret) s)))
      else if bg then
        Outcome.returned (emit (Effect.printf (fmt_job_line
          (slot (record_job env.fork_ret name (emit (Effect.fork env.fork_ret) s))
            s.jobs_count).job_id env.fork_ret "running".toList
          (slot (record_job env.fork_ret name (emit (Effect.fork env.fork_ret) s))
            s.jobs_count).command))
          (record_job env.fork_ret name (emit (Effect.fork env.fork_ret) s)))
      else
        after_wait (wait_loop s.jobs_count env.fork_ret env.sched
          { record_job env.fork_ret name (emit (Effect.fork env.fork_ret) s) with
            fg_pid := env.fork_ret }) := by
  simp only [launch, if_neg h1, emit_jobs_count]

/-- C17 as amended: in a state with fewer than 32 live jobs (no entry marked
ended, the array having its 32 elements) and for a command that is not a
built-in: when the process cannot be created (`fork` returns a negative
value) the launch writes "ERROR: cannot run <name>" to standard error and
registers no job, every global being unchanged; when the program cannot be
executed, it is the child that writes the message and exits with status 1,
while in the shell, where `fork` returned the child's pid, the launch does not
depend on the failure and registers the job: the table gains the new entry and
the id counter grows by one. -/
theorem launch_failure_reports (s : Shell) (name : List Char) (args : List (List Char))
    (bg : Bool) (env : Env) (hname : ¬ builtin name) (hlen : s.jobs_32.length = 32)
    (hlive : ∀ j ∈ table s, j.ended = false)
    (hfew : (table s).countP (fun j => !j.ended) < 32) :
    (env.fork_ret < 0 →
      eval (name :: args) bg env s =
        Outcome.returned
          { s with trace := s.trace ++ [Effect.fork env.fork_ret,
              Effect.eprintf ("ERROR: cannot run ".toList ++ name ++ "\n".toList)] }) ∧
    (env.fork_ret = 0 → env.exec_fails = true →
      eval (name :: args) bg env s =
        Outcome.exited 1
          { s with trace := s.trace ++ [Effect.fork 0, Effect.setpgid 0 0,
              Effect.execvp name (name :: args),
              Effect.eprintf ("ERROR: cannot run ".toList ++ name ++ "\n".toList),
              Effect.exit 1] }) ∧
    (0 < env.fork_ret →
      eval (name :: args) bg env s =
        eval (name :: args) bg { env with exec_fails := !env.exec_fails } s ∧
      table (eval (name :: args) true env s).state =
        table s ++ [new_job env.fork_ret s.next_job_id name] ∧
      (eval (name :: args) true env s).state.next_job_id = s.next_job_id + 1) := by
  have hcnt := count_lt_of_few s hlen hlive hfew
  have hact := active_count_of_live s hlen hlive hfew
  have h1 : ¬ active_count s ≥ 32 := by omega
  refine ⟨?_, ?_, ?_⟩
  · intro h
    rw [eval_external name args bg env s hname, launch_not_full _ _ _ _ _ h1, if_pos h]
    simp [emit]
  · intro h hx
    have h2 : ¬ env.fork_ret < 0 := by omega
    rw [eval_external name args bg env s hname, launch_not_full _ _ _ _ _ h1, if_neg h2,
      if_pos h, if_pos hx, h]
    simp [emit]
  · intro h
    have h2 : ¬ env.fork_ret < 0 := by omega
    have h3 : ¬ env.fork_ret = 0 := by omega
    refine ⟨?_, ?_, ?_⟩
    · rw [eval_external name args bg env s hname, eval_external name args bg _ s hname,
        launch_not_full _ _ _ _ _ h1, launch_not_full _ _ _ _ _ h1]
      simp only [if_neg h2, if_neg h3]
    · rw [eval_external name args true env s hname, launch_not_full _ _ _ _ _ h1, if_neg h2,
        if_neg h3]
      simp only [if_true, Outcome.state, emit_table]
      exact table_record_job _ _ _ (by simp [hlen, hcnt])
    · rw [eval_external name args true env s hname, launch_not_full _ _ _ _ _ h1, if_neg h2,
        if_neg h3]
      rfl

/-- C17 as amended, instance: `fork` fails for `ls` in the initial state. -/
theorem launch_failure_reports_witness :
    eval ["ls".toList] false { fork_ret := -1, exec_fails := false, sched := [] } init =
      Outcome.returned
        { init with trace := [Effect.fork (-1),
            Effect.eprintf "ERROR: cannot run ls\n".toList] } :=
  ((launch_failure_reports init "ls".toList [] false
    { fork_ret := -1, exec_fails := false, sched := [] } (by decide) (by decide) (by decide)
    (by decide)).1 (by decide)).trans (by decide)


/-! ## Wrong argument counts and malformed selectors -/

/-- C18, counterexample: in `ex_three` (job 3, pid 30, stopped) the command
`bg %3 %1`, with two arguments, is not rejected: no error is reported, SIGCONT
is sent to process 30, the "running" line is printed and job 3 is Running. -/
theorem bg_accepts_extra_arguments :
    emitted ex_three (eval ["bg".toList, "%3".toList, "%1".toList] false (quiet 0)
        ex_three).state =
      [Effect.kill 30 Signal.SIGCONT, Effect.printf "[3] (30)  running  c\n".toList] ∧
    (table ex_three).map (fun j => (j.job_id, j.state)) =
      [(1, JobState.Running), (2, JobState.Running), (3, JobState.Stopped)] ∧
    (table (eval ["bg".toList, "%3".toList, "%1".toList] false (quiet 0)
        ex_three).state).map (fun j => (j.job_id, j.state)) =
      [(1, JobState.Running), (2, JobState.Running), (3, JobState.Running)] := by
  decide

theorem eval_nuke (args : List (List Char)) (bg : Bool) (env : Env) (s : Shell) :
    eval ("nuke".toList :: args) bg env s = Outcome.returned (nuke_command args s) := by
  have h1 : ¬ "nuke".toList = "quit".toList := by decide
  have h2 : ¬ "nuke".toList = "jobs".toList := by decide
  simp only [eval, if_neg h1, if_neg h2, if_true]

theorem eval_fg (args : List (List Char)) (bg : Bool) (env : Env) (s : Shell) :
    eval ("fg".toList :: args) bg env s = fg_command ("fg".toList :: args) env.sched s := by
  have h1 : ¬ "fg".toList = "quit".toList := by decide
  have h2 : ¬ "fg".toList = "jobs".toList := by decide
  have h3 : ¬ "fg".toList = "nuke".toList := by decide
  simp only [eval, if_neg h1, if_neg h2, if_neg h3, if_true]

theorem eval_bg (args : List (List Char)) (bg : Bool) (env : Env) (s : Shell) :
    eval ("bg".toList :: args) bg env s =
      Outcome.returned (bg_command ("bg".toList :: args) s) := by
  have h1 : ¬ "bg".toList = "quit".toList := by decide
  have h2 : ¬ "bg".toList = "jobs".toList := by decide
  have h3 : ¬ "bg".toList = "nuke".toList := by decide
  have h4 : ¬ "bg".toList = "fg".toList := by decide
  simp only [eval, if_neg h1, if_neg h2, if_neg h3, if_neg h4, if_true]

theorem bad_job_selector_cond (r : List Char) (h : bad_job_selector r) :
    (strtol r).2 ≠ [] ∨ to_int (strtol r).1 ≤ 0 := by
  rcases h with h | ⟨h1, h2⟩
  · exact Or.inl h
  · right
    rw [to_int_of_is_int _ h2]
    exact h1

/-- C18 as amended: each of the following invocations returns the state it was
given with one "ERROR: ..." message added to standard error, and nothing else
(no signal, no change of the table or of `fg_pid`): `quit` or `jobs` with an
argument; `fg` with no argument or with more than one; `bg` with no argument;
`nuke`, `fg` or `bg` with a `%` selector whose remainder `strtol` does not read
to its end, or reads as a C int that is not positive; `nuke` or `fg` with a
selector without `%` that `strtol` does not read to its end; `bg` with a
selector without `%`.  (`bg` with more than one argument is not among them: it
acts on its first argument.) -/
theorem bad_invocation_reports (s : Shell) (bg : Bool) (env : Env) :
    (∀ a args, eval ("quit".toList :: a :: args) bg env s =
      Outcome.returned (emit (Effect.eprintf "ERROR: quit takes no arguments\n".toList) s)) ∧
    (∀ a args, eval ("jobs".toList :: a :: args) bg env s =
      Outcome.returned (emit (Effect.eprintf "ERROR: jobs takes no arguments\n".toList) s)) ∧
    (eval ["fg".toList] bg env s =
      Outcome.returned
        (emit (Effect.eprintf "ERROR: fg needs exactly one argument\n".toList) s)) ∧
    (∀ a b args, eval ("fg".toList :: a :: b :: args) bg env s =
      Outcome.returned
        (emit (Effect.eprintf "ERROR: fg needs exactly one argument\n".toList) s)) ∧
    (eval ["bg".toList] bg env s =
      Outcome.returned (emit (Effect.eprintf "ERROR: bg needs some arguments\n".toList) s)) ∧
    (∀ r, bad_job_selector r →
      eval ["nuke".toList, '%' :: r] bg env s = Outcome.returned (emit (Effect.eprintf
        ("ERROR: bad argument for nuke: ".toList ++ '%' :: r ++ "\n".toList)) s) ∧
      eval ["fg".toList, '%' :: r] bg env s = Outcome.returned (emit (Effect.eprintf
        ("ERROR: bad argument for fg: ".toList ++ '%' :: r ++ "\n".toList)) s) ∧
      ∀ rest, eval ("bg".toList :: ('%' :: r) :: rest) bg env s = Outcome.returned (emit
        (Effect.eprintf
          ("ERROR: bad argument for bg: ".toList ++ '%' :: r ++ "\n".toList)) s)) ∧
    (∀ r, r.head? ≠ some '%' → ¬ numeric r →
      eval ["nuke".toList, r] bg env s = Outcome.returned (emit (Effect.eprintf
        ("ERROR: bad argument for nuke: ".toList ++ r ++ "\n".toList)) s) ∧
      eval ["fg".toList, r] bg env s = Outcome.returned (emit (Effect.eprintf
        ("ERROR: bad argument for fg: ".toList ++ r ++ "\n".toList)) s)) ∧
    (∀ r rest, r.head? ≠ some '%' →
      eval ("bg".toList :: r :: rest) bg env s = Outcome.returned (emit (Effect.eprintf
        ("ERROR: no job ".toList ++ fmt_d (to_int (strtol r.tail).1) ++ "\n".toList)) s)) := by
  have q1 : ¬ "jobs".toList = "quit".toList := by decide
  refine ⟨?_, ?_, ?_, ?_, ?_, ?_, ?_, ?_⟩
  · intro a args
    simp [eval]
  · intro a args
    simp [eval, q1]
  · rw [eval_fg]
    rfl
  · intro a b args
    rw [eval_fg]
    rfl
  · rw [eval_bg]
    rfl
  · intro r hr
    have hc := bad_job_selector_cond r hr
    refine ⟨?_, ?_, ?_⟩
    · rw [eval_nuke]
      show Outcome.returned (nuke_one ('%' :: r) s) = _
      simp only [nuke_one, List.head?_cons, List.tail_cons, if_true]
      rw [if_pos hc]
    · rw [eval_fg]
      simp only [fg_command, List.head?_cons, List.tail_cons, if_true]
      rw [if_pos hc]
    · intro rest
      rw [eval_bg]
      have h1 : ¬ ((('%' :: r).head?) ≠ some '%') := by simp
      simp only [bg_command, List.tail_cons]
      rw [if_neg h1, if_pos hc]
  · intro r hh hn
    have hn' : (strtol r).2 ≠ [] := hn
    refine ⟨?_, ?_⟩
    · rw [eval_nuke]
      show Outcome.returned (nuke_one r s) = _
      simp only [nuke_one]
      rw [if_neg hh, if_pos hn']
    · rw [eval_fg]
      simp only [fg_command]
      rw [if_neg hh, if_pos hn']
  · intro r rest hh
    rw [eval_bg]
    simp only [bg_command]
    rw [if_pos hh]

/-- C18 as amended, instance: malformed selectors in `ex_two`. -/
theorem bad_invocation_reports_witness :
    bad_job_selector "abc".toList ∧ bad_job_selector "0".toList ∧
    bad_job_selector "-1".toList ∧ bad_job_selector "".toList ∧
    bad_job_selector "12x".toList ∧ ¬ numeric "12x".toList ∧
    eval ["nuke".toList, "%0".toList] false (quiet 0) ex_two =
      Outcome.returned
        (emit (Effect.eprintf "ERROR: bad argument for nuke: %0\n".toList) ex_two) ∧
    eval ["fg".toList, "12x".toList] false (quiet 0) ex_two =
      Outcome.returned
        (emit (Effect.eprintf "ERROR: bad argument for fg: 12x\n".toList) ex_two) :=
  have h := bad_invocation_reports ex_two false (quiet 0)
  ⟨by decide, by decide, by decide, by decide, by decide, by decide,
    ((h.2.2.2.2.2.1 "0".toList (by decide)).1).trans (by decide),
    ((h.2.2.2.2.2.2.1 "12x".toList (by decide) (by decide)).2).trans (by decide)⟩


/-! ## parse_and_eval splits the line into the commands of the specification -/

theorem tokens_of_nil : tokens_of [] = [] := by
  simp [tokens_of]

theorem tokens_of_blank_cons (b : Char) (x : List Char) (hb : is_blank b = true) :
    tokens_of (b :: x) = tokens_of x := by
  simp [tokens_of, List.splitOnP_cons, hb]

theorem tokens_of_blanks_append (p x : List Char) (hp : ∀ c ∈ p, is_blank c = true) :
    tokens_of (p ++ x) = tokens_of x := by
  induction p with
  | nil => rfl
  | cons b bs ih =>
    rw [List.cons_append, tokens_of_blank_cons _ _ (hp b (List.mem_cons_self _ _))]
    exact ih (fun c hc => hp c (List.mem_cons_of_mem _ hc))

theorem tokens_of_token_append (tok x : List Char) (hne : tok ≠ [])
    (htok : ∀ c ∈ tok, is_blank c = false)
    (hx : x = [] ∨ ∃ b x', x = b :: x' ∧ is_blank b = true) :
    tokens_of (tok ++ x) = tok :: tokens_of x := by
  have hnb : ∀ c ∈ tok, ¬ is_blank c = true := by
    intro c hc
    simp [htok c hc]
  have hemp : tok.isEmpty = false := by
    cases tok with
    | nil => exact absurd rfl hne
    | cons a as => rfl
  rcases hx with rfl | ⟨b, x', rfl, hb⟩
  · rw [List.append_nil, tokens_of_nil]
    simp [tokens_of, List.splitOnP_eq_single is_blank tok hnb, hemp]
  · rw [tokens_of_blank_cons b x' hb]
    simp [tokens_of, List.splitOnP_first is_blank tok hnb b hb x', hemp]

theorem split_first_append (p x : List Char) (hp : ∀ c ∈ p, c ≠ '&' ∧ c ≠ ';') :
    split_first (p ++ x) =
      (p ++ (split_first x).1, (split_first x).2.1, (split_first x).2.2) := by
  induction p with
  | nil => rfl
  | cons c cs ih =>
    have hc := hp c (List.mem_cons_self _ _)
    rw [List.cons_append]
    simp only [split_first, if_neg hc.1, if_neg hc.2]
    rw [ih (fun d hd => hp d (List.mem_cons_of_mem _ hd))]
    rfl

theorem split_first_rest_lt (s : List Char) (hs : s ≠ []) :
    (split_first s).2.2.length < s.length := by
  induction s with
  | nil => exact absurd rfl hs
  | cons c cs ih =>
    simp only [split_first]
    split_ifs
    · simp
    · simp
    · cases cs with
      | nil => simp [split_first]
      | cons d ds =>
        have := ih (by simp)
        simp only [List.length_cons] at this ⊢
        omega

theorem segments_split_first (s : List Char) :
    segments s = ((split_first s).1, (split_first s).2.1) :: segments (split_first s).2.2 ∨
    (segments s = [((split_first s).1, false)] ∧ (split_first s).2.1 = false ∧
      (split_first s).2.2 = []) := by
  induction s with
  | nil => exact Or.inr ⟨rfl, rfl, rfl⟩
  | cons c cs ih =>
    by_cases h1 : c = '&'
    · left
      simp [segments, split_first, h1]
    · by_cases h2 : c = ';'
      · left
        simp [segments, split_first, h2]
      · simp only [segments, split_first, if_neg h1, if_neg h2]
        rcases ih with h | ⟨h, hb, hr⟩
        · left
          rw [h]
        · right
          rw [h]
          exact ⟨rfl, hb, hr⟩

theorem commands_nil : commands [] = [] := by
  simp [commands, segments, tokens_of_nil]

theorem commands_split_first (s : List Char) :
    commands s =
      (if (tokens_of (split_first s).1).isEmpty then []
        else [(tokens_of (split_first s).1, (split_first s).2.1)])
      ++ commands (split_first s).2.2 := by
  rcases segments_split_first s with h | ⟨h, hb, hr⟩
  · simp only [commands, h, List.map_cons, List.filter_cons]
    by_cases he : (tokens_of (split_first s).1).isEmpty = true
    · simp [he]
    · simp [he]
  · rw [hr, commands_nil, List.append_nil]
    simp only [commands, h, List.map_cons, List.map_nil, List.filter_cons, List.filter_nil, hb]
    by_cases he : (tokens_of (split_first s).1).isEmpty = true
    · simp [he]
    · simp [he]

theorem blank_not_delimiter (c : Char) (h : is_blank c = true) : c ≠ '&' ∧ c ≠ ';' := by
  constructor
  · rintro rfl
    exact absurd h (by decide)
  · rintro rfl
    exact absurd h (by decide)

theorem not_ends_token (c : Char) (h : in_token c = true) :
    is_blank c = false ∧ c ≠ '&' ∧ c ≠ ';' := by
  simp only [in_token, ends_token, Bool.not_eq_true', Bool.or_eq_false_iff,
    beq_eq_false_iff_ne] at h
  exact ⟨h.2, h.1.1, h.1.2⟩

theorem split_first_dropWhile (s : List Char) :
    tokens_of (split_first s).1 = tokens_of (split_first (s.dropWhile is_blank)).1 ∧
    (split_first s).2.1 = (split_first (s.dropWhile is_blank)).2.1 ∧
    (split_first s).2.2 = (split_first (s.dropWhile is_blank)).2.2 := by
  have hs : s = s.takeWhile is_blank ++ s.dropWhile is_blank :=
    (List.takeWhile_append_dropWhile is_blank s).symm
  have hp : ∀ c ∈ s.takeWhile is_blank, is_blank c = true :=
    fun c hc => (List.mem_takeWhile_imp hc)
  have h := split_first_append (s.takeWhile is_blank) (s.dropWhile is_blank)
    (fun c hc => blank_not_delimiter c (hp c hc))
  rw [← hs] at h
  rw [h]
  exact ⟨tokens_of_blanks_append _ _ hp, rfl, rfl⟩

theorem commands_dropWhile (s : List Char) : commands (s.dropWhile is_blank) = commands s := by
  obtain ⟨h1, h2, h3⟩ := split_first_dropWhile s
  rw [commands_split_first s, commands_split_first (s.dropWhile is_blank), h1, h2, h3]


theorem dropWhile_head_not_blank (s : List Char) (c : Char) (r : List Char)
    (h : s.dropWhile is_blank = c :: r) : is_blank c = false := by
  have hne : s.dropWhile is_blank ≠ [] := by rw [h]; simp
  have := List.head_dropWhile_not is_blank s hne
  simp only [h, List.head_cons] at this
  simpa using this

theorem mem_takeWhile_sat (p : Char → Bool) (l : List Char) (x : Char)
    (hx : x ∈ l.takeWhile p) : p x = true :=
  List.mem_takeWhile_imp hx

theorem dropWhile_length_le (p : Char → Bool) (s : List Char) :
    (s.dropWhile p).length ≤ s.length := by
  have := congrArg List.length (List.takeWhile_append_dropWhile p s)
  rw [List.length_append] at this
  omega

/-- The inner loop collects the tokens of the first segment of what is left of
the line. -/
theorem scan_command_eq : ∀ (n : Nat) (s : List Char) (toks : List (List Char)),
    s.length < n →
    scan_command n s toks =
      (toks ++ tokens_of (split_first s).1, (split_first s).2.1, (split_first s).2.2) := by
  intro n
  induction n with
  | zero => intro s toks h; omega
  | succ n ih =>
    intro s toks hlen
    obtain ⟨h1, h2, h3⟩ := split_first_dropWhile s
    rw [h1, h2, h3]
    have hdl := dropWhile_length_le is_blank s
    cases hs' : s.dropWhile is_blank with
    | nil =>
      simp only [scan_command, hs', split_first, tokens_of_nil, List.append_nil]
    | cons c r =>
      have hcb := dropWhile_head_not_blank s c r hs'
      by_cases ha : c = '&'
      · simp only [scan_command, hs', split_first, if_pos ha, tokens_of_nil, List.append_nil]
      · by_cases hsc : c = ';'
        · simp only [scan_command, hs', split_first, if_neg ha, if_pos hsc, tokens_of_nil,
            List.append_nil]
        · have hc : in_token c = true := by
            simp [in_token, ends_token, ha, hsc, hcb]
          have hsplit : c :: r = (c :: r).takeWhile in_token
              ++ (c :: r).dropWhile in_token :=
            (List.takeWhile_append_dropWhile _ _).symm
          have htok : ∀ x ∈ (c :: r).takeWhile in_token,
              in_token x = true :=
            fun x hx => mem_takeWhile_sat in_token (c :: r) x hx
          have hne : (c :: r).takeWhile in_token ≠ [] := by
            rw [List.takeWhile_cons_of_pos hc]
            simp
          have hlen2 : ((c :: r).dropWhile in_token).length < n := by
            have e := congrArg List.length hsplit
            rw [List.length_append] at e
            have : 0 < ((c :: r).takeWhile in_token).length :=
              List.length_pos.mpr hne
            rw [hs'] at hdl
            omega
          have hrest : (c :: r).dropWhile in_token = [] ∨
              ∃ d x', (c :: r).dropWhile in_token = d :: x' ∧
                ends_token d = true := by
            cases hd : (c :: r).dropWhile in_token with
            | nil => exact Or.inl rfl
            | cons d x' =>
              right
              refine ⟨d, x', rfl, ?_⟩
              have hne' : (c :: r).dropWhile in_token ≠ [] := by
                rw [hd]; simp
              have := List.head_dropWhile_not in_token (c :: r) hne'
              simp only [hd, List.head_cons] at this
              simpa [in_token] using this
          have hsf := split_first_append ((c :: r).takeWhile in_token)
            ((c :: r).dropWhile in_token)
            (fun x hx => (not_ends_token x (htok x hx)).2)
          rw [← hsplit] at hsf
          have hseg : (split_first ((c :: r).dropWhile in_token)).1 = [] ∨
              ∃ b x', (split_first ((c :: r).dropWhile in_token)).1 = b :: x' ∧
                is_blank b = true := by
            rcases hrest with h | ⟨d, x', h, hd⟩
            · left
              rw [h]
              rfl
            · rw [h]
              by_cases hda : d = '&'
              · left
                simp [split_first, hda]
              · by_cases hds : d = ';'
                · left
                  simp [split_first, hds]
                · right
                  refine ⟨d, (split_first x').1, by simp [split_first, hda, hds], ?_⟩
                  simpa [ends_token, hda, hds] using hd
          have htk := tokens_of_token_append _ _ hne
            (fun x hx => (not_ends_token x (htok x hx)).1) hseg
          have hstep : scan_command (n + 1) s toks =
              scan_command n ((c :: r).dropWhile in_token)
                (toks ++ [(c :: r).takeWhile in_token]) := by
            simp only [scan_command, hs', if_neg ha, if_neg hsc]
          rw [hstep, ih _ _ hlen2, hsf]
          simp only [htk, List.append_assoc, List.singleton_append]


theorem parse_loop_eq : ∀ (n : Nat) (s : List Char) (k : Nat) (envs : Nat → Env) (sh : Shell),
    s.length < n → (∀ c ∈ commands s, c.1.length ≤ MAXLINE) →
    parse_loop n s k envs sh = some (eval_all (commands s) k envs sh) := by
  intro n
  induction n with
  | zero => intro s k envs sh h; omega
  | succ n ih =>
    intro s k envs sh hlen hmax
    have hdl := dropWhile_length_le is_blank s
    rw [← commands_dropWhile s] at hmax ⊢
    cases hs' : s.dropWhile is_blank with
    | nil =>
      simp only [parse_loop, hs', commands_nil, eval_all]
    | cons c r =>
      rw [hs'] at hmax hdl
      have hscan := scan_command_eq ((c :: r).length + 1) (c :: r) [] (by omega)
      rw [List.nil_append] at hscan
      have hcmd := commands_split_first (c :: r)
      have hrest : (split_first (c :: r)).2.2.length < n := by
        have := split_first_rest_lt (c :: r) (by simp)
        omega
      simp only [parse_loop, hs', hscan]
      by_cases he : (tokens_of (split_first (c :: r)).1).isEmpty = true
      · rw [if_pos he, List.nil_append] at hcmd
        have hl : (tokens_of (split_first (c :: r)).1).length = 0 := by
          rw [List.isEmpty_iff] at he
          rw [he]
          rfl
        have c1 : ¬ MAXLINE < (tokens_of (split_first (c :: r)).1).length := by
          rw [hl]
          omega
        have c2 : ¬ (tokens_of (split_first (c :: r)).1).length > 0 := by
          rw [hl]
          omega
        rw [if_neg c1, if_neg c2, hcmd]
        exact ih _ k envs sh hrest (by rw [← hcmd]; exact hmax)
      · rw [if_neg he] at hcmd
        have hmem : (tokens_of (split_first (c :: r)).1, (split_first (c :: r)).2.1)
            ∈ commands (c :: r) := by
          rw [hcmd]
          simp
        have c1 : ¬ MAXLINE < (tokens_of (split_first (c :: r)).1).length := by
          have := hmax _ hmem
          simp only at this
          omega
        have c2 : (tokens_of (split_first (c :: r)).1).length > 0 := by
          apply List.length_pos.mpr
          intro h0
          rw [h0] at he
          exact he rfl
        have hmax' : ∀ x ∈ commands (split_first (c :: r)).2.2, x.1.length ≤ MAXLINE := by
          intro x hx
          apply hmax
          rw [hcmd]
          exact List.mem_append_right _ hx
        rw [if_neg c1, if_pos c2, hcmd]
        simp only [List.singleton_append, eval_all]
        cases hev : eval (tokens_of (split_first (c :: r)).1) (split_first (c :: r)).2.1
            (envs k) sh with
        | returned sh' => exact ih _ (k + 1) envs sh' hrest hmax'
        | exited code sh' => rfl
        | polling sh' => rfl
        | replaced sh' => rfl

/-- C20: for a line none of whose commands has more than 1024 (`MAXLINE`)
tokens, `parse_and_eval` stays inside its token array and does what evaluating
the commands of the line does: `eval` is called once per command that has a
token, from left to right (for as long as the calls return: `quit` ends the
process), where the commands are the segments of the line ended by `';'`, by
`'&'` or by the end of the line, the tokens passed are the maximal runs of
characters other than space, tab and newline inside the segment (a segment
contains neither `';'` nor `'&'`), in order, and the flag `bg` is true exactly
for a segment ended by `'&'`. -/
theorem parse_and_eval_splits_commands (line : List Char) (envs : Nat → Env) (sh : Shell)
    (hmax : ∀ c ∈ commands line, c.1.length ≤ MAXLINE) :
    parse_and_eval line envs sh = some (eval_all (commands line) 0 envs sh) :=
  parse_loop_eq (line.length + 1) line 0 envs sh (by omega) hmax

/-- C20, instance: the line `sleep 100 & jobs;nuke %1 ;; ls -l` has the four
commands `sleep 100` (background), `jobs`, `nuke %1` and `ls -l`. -/
theorem parse_and_eval_splits_commands_witness :
    commands "sleep 100 & jobs;nuke %1 ;; ls\t-l\n".toList =
      [(["sleep".toList, "100".toList], true), (["jobs".toList], false),
       (["nuke".toList, "%1".toList], false), (["ls".toList, "-l".toList], false)] ∧
    parse_and_eval "sleep 100 & jobs;nuke %1 ;; ls\t-l\n".toList (fun _ => quiet 5) init =
      some (eval_all (commands "sleep 100 & jobs;nuke %1 ;; ls\t-l\n".toList) 0
        (fun _ => quiet 5) init) :=
  ⟨by decide,
    parse_and_eval_splits_commands "sleep 100 & jobs;nuke %1 ;; ls\t-l\n".toList
      (fun _ => quiet 5) init (by decide)⟩


/-- A selector whose number does not fit in an `int` is reduced modulo `2^32`
by the conversion of the `long` returned by `strtol`.  In `ex_two`, `nuke %-4294967295` and `nuke %4294967297` are read as
job 1 and send SIGKILL to its process 10. -/
theorem selector_wraps_to_int :
    nuke_command ["%-4294967295".toList] ex_two =
      emit (Effect.kill 10 Signal.SIGKILL) ex_two ∧
    nuke_command ["%4294967297".toList] ex_two =
      emit (Effect.kill 10 Signal.SIGKILL) ex_two := by
  decide


/-! ## The token array of parse_and_eval -/

theorem word_line_no_delimiter (n : Nat) : ∀ c ∈ word_line n, c ≠ '&' ∧ c ≠ ';' := by
  induction n with
  | zero => intro c hc; cases hc
  | succ n ih =>
    intro c hc
    simp only [word_line, List.mem_cons] at hc
    rcases hc with h | h | h
    · rw [h]
      decide
    · rw [h]
      decide
    · exact ih c h

theorem split_first_word_line (n : Nat) : split_first (word_line n) = (word_line n, false, []) := by
  have := split_first_append (word_line n) [] (word_line_no_delimiter n)
  simpa [split_first] using this

theorem tokens_of_word_line (n : Nat) : tokens_of (word_line n) = List.replicate n ['a'] := by
  induction n with
  | zero => exact tokens_of_nil
  | succ n ih =>
    have h := tokens_of_token_append ['a'] (' ' :: word_line n) (by simp)
      (by intro c hc; rw [List.mem_singleton.mp hc]; decide)
      (Or.inr ⟨' ', word_line n, rfl, by decide⟩)
    have e : word_line (n + 1) = ['a'] ++ ' ' :: word_line n := rfl
    rw [e, h, tokens_of_blank_cons _ _ (by decide), ih]
    rfl

theorem word_line_length (n : Nat) : (word_line n).length = 2 * n := by
  induction n with
  | zero => rfl
  | succ n ih =>
    simp only [word_line, List.length_cons, ih]
    omega

theorem scan_word_line (n : Nat) :
    scan_command ((word_line n).length + 1) (word_line n) [] =
      (List.replicate n ['a'], false, []) := by
  rw [scan_command_eq _ _ _ (by omega), split_first_word_line, tokens_of_word_line]
  rfl

/-- A line of more than `MAXLINE` tokens in one command takes `parse_and_eval`
outside its token array, whatever the state and the environment. -/
theorem parse_and_eval_word_line (n : Nat) (hn : MAXLINE < n) (envs : Nat → Env) (sh : Shell) :
    parse_and_eval (word_line n) envs sh = none := by
  obtain ⟨m, rfl⟩ : ∃ m, n = m + 1 := ⟨n - 1, by omega⟩
  have hs := scan_word_line (m + 1)
  have hd : (word_line (m + 1)).dropWhile is_blank = 'a' :: ' ' :: word_line m := by
    have : is_blank 'a' = false := by decide
    simp [word_line, List.dropWhile_cons, this]
  have he : 'a' :: ' ' :: word_line m = word_line (m + 1) := rfl
  simp only [parse_and_eval, parse_loop, hd]
  rw [he, hs]
  simp only [List.length_replicate]
  rw [if_pos hn]

/-- C21, failing input: the line `ex_long_line` consists of 1025 tokens `a`
separated by spaces, one command.  The scan stores its 1025 tokens at
`toks[0]` to `toks[1024]` and then `toks[1025] = NULL`: the index 1025 is not
among the `MAXLINE + 1 = 1025` elements of the array, and `parse_and_eval`
leaves defined behaviour (result `none`). -/
theorem long_line_overflows_token_array :
    ex_long_line.length = 2050 ∧
    commands ex_long_line = [(List.replicate 1025 ['a'], false)] ∧
    (scan_command (ex_long_line.length + 1) ex_long_line []).1.length = 1025 ∧
    1025 ∈ token_stores (scan_command (ex_long_line.length + 1) ex_long_line []).1 ∧
    ¬ 1025 < MAXLINE + 1 ∧
    parse_and_eval ex_long_line (fun _ => quiet 5) init = none := by
  have hs := scan_word_line 1025
  have hc := commands_split_first (word_line 1025)
  rw [split_first_word_line, tokens_of_word_line, commands_nil] at hc
  refine ⟨?_, ?_, ?_, ?_, by decide, ?_⟩
  · exact (word_line_length 1025).trans rfl
  · rw [show ex_long_line = word_line 1025 from rfl, hc]
    rfl
  · rw [show ex_long_line = word_line 1025 from rfl, hs]
    exact List.length_replicate _ _
  · rw [show ex_long_line = word_line 1025 from rfl, hs]
    apply List.mem_range.mpr
    rw [List.length_replicate]
    omega
  · exact parse_and_eval_word_line 1025 (by decide) _ _

/-- The bound is sharp: a one-command line of at most `MAXLINE` tokens stays
inside the array. -/
theorem parse_and_eval_word_line_in_bounds (n : Nat) (hn : n ≤ MAXLINE) (envs : Nat → Env)
    (sh : Shell) :
    parse_and_eval (word_line n) envs sh = some (eval_all (commands (word_line n)) 0 envs sh) := by
  have hc := commands_split_first (word_line n)
  rw [split_first_word_line, tokens_of_word_line, commands_nil, List.append_nil] at hc
  apply parse_loop_eq _ _ _ _ _ (by omega)
  intro c hmem
  rw [hc] at hmem
  split at hmem
  · cases hmem
  · rw [List.mem_singleton.mp hmem]
    simp only [List.length_replicate]
    exact hn


/-! ## SIGCHLD during the recording of a job -/

theorem record_job_at_jobs_count (pid : Int) (name : List Char) (s : Shell) :
    record_job_at s.jobs_count pid name s = record_job pid name s := rfl

theorem launch_interrupted_nil (toks : List (List Char)) (name : List Char) (bg : Bool)
    (env : Env) (s : Shell) :
    launch_interrupted toks name bg env [] s = launch toks name bg env s := rfl

theorem eval_interrupted_nil (toks : List (List Char)) (bg : Bool) (env : Env) (s : Shell) :
    eval_interrupted toks bg env [] s = eval toks bg env s := by
  cases toks with
  | nil => rfl
  | cons name args =>
    by_cases h : builtin name
    · simp only [eval_interrupted, if_pos h]
    · simp only [eval_interrupted, if_neg h, launch_interrupted_nil]
      exact (eval_external name args bg env s h).symm

theorem async_run_events (evs : List Event) (s : Shell) :
    async_run (evs.map AsyncEvent.event) s = run evs s := by
  induction evs generalizing s with
  | nil => rfl
  | cons e es ih =>
    simp only [List.map_cons, async_run, run, async_step]
    cases step e s with
    | returned s' => exact ih s'
    | exited c s' => rfl
    | polling s' => rfl
    | replaced s' => rfl

theorem AsyncReachable_of_Reachable {s : Shell} (h : Reachable s) : AsyncReachable s := by
  obtain ⟨evs, rfl⟩ := h
  exact ⟨evs.map AsyncEvent.event, by rw [async_run_events]⟩

/-- C2, failing input: `a &` (child 10, job 1), `p &` (child 20, job 2), then
`c &` (child 30), with the SIGCHLD for the exit of process 10 delivered while
`c` is being recorded.  Line 476 has computed `j = &jobs_32[2]`; the handler
removes job 1, `job_eliminate(0)` copies element 1 onto element 0 and lowers
`jobs_count` to 1; lines 477-485 then write job 3 through `j` and raise
`jobs_count` to 2.  The table is now elements 0 and 1, both holding job 2 with
pid 20: two entries share one job id, and job 3 lies outside the table.  The
ids handed out are still 1, 2, 3. -/
theorem registration_race_duplicates_job_id :
    async_run ex_race_first_session init =
      Outcome.returned (async_run ex_race_first_session init).state ∧
    AsyncReachable (async_run ex_race_first_session init).state ∧
    (table (async_run ex_race_first_session init).state).map
      (fun j => (j.job_id, j.pid, j.state)) =
      [(2, 20, JobState.Running), (2, 20, JobState.Running)] ∧
    ¬ ((table (async_run ex_race_first_session init).state).map fun j => j.job_id).Nodup ∧
    (async_run ex_race_first_session init).state.jobs_count = 2 ∧
    slot (async_run ex_race_first_session init).state 2 = new_job 30 3 "c".toList ∧
    (async_run ex_race_first_session init).state.id_log = [1, 2, 3] ∧
    stdout_text (async_run ex_race_first_session init).state.trace =
      ("[1] (10)  running  a\n[2] (20)  running  p\n[1] (10)  finished  a\n"
        ++ "[3] (30)  running  c\n").toList :=
  ⟨by decide, ⟨ex_race_first_session, rfl⟩, by decide, by decide, by decide, by decide,
    by decide, by decide⟩

/-- C19, failing input: `a &` (child 10), `p &` (child 20), then `c &`
(child 30), with the SIGCHLD for the exit of process 20 delivered while `c` is
being recorded.  The handler marks element 1 ended and `job_eliminate(1)`,
which has nothing to shift, lowers `jobs_count` to 1; lines 477-485 then write
job 3 at index 2 and raise `jobs_count` to 2.  The table now holds job 1 and
the ended job 2, and the capacity check counts 1 live job for 2 entries.  After
30 more background launches the table has 32 entries of which 31 are live: the
capacity check lets the next launch through, `fork` is called, and the element
that launch writes, at index `jobs_count = 32`, is outside the 32-element
array. -/
theorem registration_race_keeps_ended_entry :
    AsyncReachable (async_run ex_race_last_session init).state ∧
    (table (async_run ex_race_last_session init).state).map
      (fun j => (j.job_id, j.pid, j.state)) =
      [(1, 10, JobState.Running), (2, 20, JobState.Terminated)] ∧
    (async_run ex_race_last_session init).state.jobs_count = 2 ∧
    active_count (async_run ex_race_last_session init).state = 1 ∧
    slot (async_run ex_race_last_session init).state 2 = new_job 30 3 "c".toList ∧
    AsyncReachable (async_run ex_race_fill_session init).state ∧
    (async_run ex_race_fill_session init).state.jobs_32.length = 32 ∧
    (async_run ex_race_fill_session init).state.jobs_count = 32 ∧
    active_count (async_run ex_race_fill_session init).state = 31 ∧
    (emitted (async_run ex_race_fill_session init).state
      (launch ["z".toList] "z".toList true (quiet 99)
        (async_run ex_race_fill_session init).state).state).head? = some (Effect.fork 99) ∧
    ¬ (async_run ex_race_fill_session init).state.jobs_count <
      (async_run ex_race_fill_session init).state.jobs_32.length :=
  ⟨⟨ex_race_last_session, rfl⟩, by decide, by decide, by decide, by decide,
    ⟨ex_race_fill_session, rfl⟩, by decide, by decide, by decide, by decide, by decide⟩

end Crash
